import Mathlib

/-!
Verification of the BIP0044 address-manager core (`udb.Manager`) of the
abcwallet repository.  The Go source is shallowly embedded: machine `uint32`
values become `Nat` with explicit wrap-around arithmetic, byte slices become
`List Nat`, Go `nil` pointers/maps become `Option`, the key-value store
becomes an explicit `Store` record threaded through the operations, and the
external cryptographic/HD-key libraries (snacl, hdkeychain) are abstracted
as an `Env` of oracle functions reflecting their stated contracts.
-/

set_option maxRecDepth 4096

/-- `hdkeychain.HardenedKeyStart = 2^31`. -/
def HardenedKeyStart : Nat := 2147483648

/-- `MaxAccountNum = hdkeychain.HardenedKeyStart - 2` (2^31 - 2). -/
def MaxAccountNum : Nat := HardenedKeyStart - 2

/-- `MaxAddressesPerAccount = hdkeychain.HardenedKeyStart - 1` (2^31 - 1). -/
def MaxAddressesPerAccount : Nat := HardenedKeyStart - 1

/-- `ImportedAddrAccount = MaxAccountNum + 1` (2^31 - 1). -/
def ImportedAddrAccount : Nat := MaxAccountNum + 1

/-- `ImportedAddrAccountName = "imported"`. -/
def ImportedAddrAccountName : String := "imported"

/-- `ExternalBranch uint32 = 0`. -/
def ExternalBranch : Nat := 0

/-- `InternalBranch uint32 = 1`. -/
def InternalBranch : Nat := 1

/-- `^uint32(0)`, the sentinel index `0xFFFF_FFFF`. -/
def U32Sentinel : Nat := 4294967295

/-- Wrapping `uint32` increment, `x + 1` in Go on a `uint32`. -/
def inc32 (x : Nat) : Nat := (x + 1) % 4294967296

/-- Wrapping `uint32` decrement, `x - 1` in Go on a `uint32`. -/
def dec32 (x : Nat) : Nat := (x + 4294967295) % 4294967296

/-- `maxUint32` from the source: the larger of two indexes. -/
def maxUint32 (a b : Nat) : Nat := if a > b then a else b

/-- `zero.Bytes`: set every byte of a slice to zero (length preserved). -/
def zeroBytes (b : List Nat) : List Nat := b.map (fun _ => 0)

/-- A byte slice whose bytes are all zero. -/
def allZero (b : List Nat) : Prop := ∀ x ∈ b, x = 0

instance (b : List Nat) : Decidable (allZero b) := by
  unfold allZero; infer_instance

/-- Go's `copy(dst, src)`: overwrite the first `min |dst| |src|` bytes of
`dst` with those of `src`, keeping `dst`'s length. -/
def goCopy (dst src : List Nat) : List Nat :=
  src.take dst.length ++ dst.drop src.length

/-- Association-list lookup, modelling a fetch from a database bucket keyed
by `κ`. -/
def alookup {κ β : Type} [DecidableEq κ] : List (κ × β) → κ → Option β
  | [], _ => none
  | (k₀, v₀) :: t, k => if k₀ = k then some v₀ else alookup t k

/-- Association-list put, modelling a bucket `Put`: replace the existing
row in place, or append a fresh row. -/
def aput {κ β : Type} [DecidableEq κ] : List (κ × β) → κ → β → List (κ × β)
  | [], k, v => [(k, v)]
  | (k₀, v₀) :: t, k, v =>
    if k₀ = k then (k, v) :: t else (k₀, v₀) :: aput t k v

/-- `hdkeychain.ExtendedKey`, reduced to the secret serialized material the
claims are about.  `Zero()` clears the bytes. -/
structure ExtKey where
  bytes : List Nat
deriving DecidableEq

/-- `ExtendedKey.Zero()`. -/
def ExtKey.zero (k : ExtKey) : ExtKey := ⟨zeroBytes k.bytes⟩

/-- All secret bytes of the extended key are zero. -/
def ExtKey.isZeroed (k : ExtKey) : Prop := allZero k.bytes

/-- `snacl.SecretKey`: scrypt parameters plus the derived (unwrapped) key
bytes.  `Zero()` clears only the key bytes. -/
structure SecretKey where
  params : List Nat
  key : List Nat
deriving DecidableEq

/-- `SecretKey.Zero()`. -/
def SecretKey.zero (s : SecretKey) : SecretKey := ⟨s.params, zeroBytes s.key⟩

/-- `accountInfo`: the manager's in-memory cache entry for one account. -/
structure AccountInfo where
  acctName : String
  acctKeyEncrypted : List Nat
  acctKeyPriv : Option ExtKey
  acctKeyPub : Option ExtKey
deriving DecidableEq

/-- A persisted BIP0044 account row (the fields of `dbBIP0044AccountRow`
visible through `bip0044AccountInfo` and `fetchAccountInfo`). -/
structure AccountRow where
  pubKeyEncrypted : List Nat
  privKeyEncrypted : List Nat
  lastUsedExternalIndex : Nat
  lastUsedInternalIndex : Nat
  lastReturnedExternalIndex : Nat
  lastReturnedInternalIndex : Nat
  name : String
deriving DecidableEq

/-- Modelled from the spec: `bip0044AccountInfo` (the row constructor lives
in the db schema file that is not under `src/`).  Field order follows every
call site in the source: encrypted pub key, encrypted priv key, the two
legacy next-to-use indexes (not part of the persisted row model in the
spec's §3 data model, ignored here), last-used external/internal, and
last-returned external/internal indexes, then the account name. -/
def bip0044AccountInfo (pubEnc privEnc : List Nat) (_nextExt _nextInt : Nat)
    (usedExt usedInt retExt retInt : Nat) (name : String) : AccountRow :=
  ⟨pubEnc, privEnc, usedExt, usedInt, retExt, retInt, name⟩

/-- A persisted address row: the three variants dispatched on by
`rowInterfaceToManaged` / `PrivateKey` / `RedeemScript`. -/
inductive AddrRow where
  | chained (account branch index : Nat)
  | importedKey (encryptedPubKey : List Nat) (encryptedPrivKey : List Nat)
  | script (encryptedHash : List Nat) (encryptedScript : List Nat)
deriving DecidableEq

/-- The `addresses` bucket: 20-byte hash (modelled as `Nat`) to row. -/
abbrev AddrMap : Type := List (Nat × AddrRow)

/-- Whether the `addresses` bucket holds a row under the given hash
(`existsAddress` / a successful `fetchAddress`). -/
def containsAddr (a : AddrMap) (h : Nat) : Prop := (alookup a h).isSome

instance (a : AddrMap) (h : Nat) : Decidable (containsAddr a h) := by
  unfold containsAddr; infer_instance

/-- The persisted state of the manager's namespace (§4.3 of the spec):
master-key parameters, wrapped crypto keys, wrapped coin-type keys, the
watching-only flag, account rows, the name index, the last account number
and the address rows.  `Option`/`[]` model deleted or absent values. -/
structure Store where
  masterKeyPubParams : List Nat
  masterKeyPrivParams : Option (List Nat)
  cryptoKeyPubEnc : List Nat
  cryptoKeyPrivEnc : Option (List Nat)
  cryptoKeyScriptEnc : Option (List Nat)
  coinTypePubEnc : List Nat
  coinTypePrivEnc : Option (List Nat)
  watchingOnly : Bool
  lastAccount : Nat
  accounts : List (Nat × AccountRow)
  nameIndex : List (String × Nat)
  addresses : AddrMap
  nextToUsePool : List ((Nat × Bool) × Nat)
deriving DecidableEq

/-- The in-memory `Manager` state (the fields of the Go struct that the
claims concern; the two mutexes have no sequential content). -/
structure Manager where
  returnedPrivKeys : Option (List (Nat × Nat))
  returnedScripts : Option (List (Nat × List Nat))
  watchingOnly : Bool
  locked : Bool
  closed : Bool
  acctInfo : List (Nat × AccountInfo)
  masterKeyPub : SecretKey
  masterKeyPriv : Option SecretKey
  cryptoKeyPub : List Nat
  cryptoKeyPrivEncrypted : List Nat
  cryptoKeyPriv : Option (List Nat)
  cryptoKeyScriptEncrypted : List Nat
  cryptoKeyScript : Option (List Nat)
  privPassphraseSalt : List Nat
  hashedPrivPassphrase : List Nat
deriving DecidableEq

/-- The error kinds of `apperrors` used by the embedded operations. -/
inductive MErr where
  | watchingOnly | locked | wrongPassphrase | crypto | keyChain
  | database | branch | notFound | invalidAccount | duplicateAccount
  | tooManyAddresses | accountNumTooHigh | input | internalNil | diverges
  | alreadyExists | emptyPassphrase | coinTypeTooHigh | wrongNet
deriving DecidableEq

/-- Result of `ExtendedKey.Child`: a new key, the non-fatal
`ErrInvalidChild` skip signal, or any other (fatal) error. -/
inductive KeyChildResult where
  | okK (k : ExtKey)
  | invalidK
  | failK
deriving DecidableEq

/-- `snacl.SecretKey.DeriveKey` failures. -/
inductive DeriveErr where
  | invalidPassword
  | other
deriving DecidableEq

/-- The abstracted external collaborators (snacl scrypt/secretbox,
hdkeychain BIP0032 arithmetic, SHA-512, randomness and the two fallible
store writes of `ChangePassphrase`), per the library contracts in §4.1,
§4.2 and §6 of the spec.  Each oracle is a pure function, so a given `Env`
fixes one deterministic behaviour of the collaborators. -/
structure Env where
  derive : List Nat → List Nat → Except DeriveErr (List Nat)
  decrypt : List Nat → List Nat → Option (List Nat)
  encrypt : List Nat → List Nat → Option (List Nat)
  sha512 : List Nat → List Nat
  newSecretKey : List Nat → Option SecretKey
  randSalt : Option (List Nat)
  parseKey : List Nat → Option ExtKey
  keyChild : ExtKey → Nat → KeyChildResult
  neuter : ExtKey → Option ExtKey
  serializeKey : ExtKey → Option (List Nat)
  addrHash : ExtKey → Nat
  loadAcct : Nat → Bool → Except MErr AccountInfo
  ecPriv : ExtKey → Option Nat
  parsePrivScalar : List Nat → Nat
  newMaster : List Nat → Option ExtKey
  isForNet : ExtKey → Bool
  newCryptoKeyPub : Option (List Nat)
  newCryptoKeyPriv : Option (List Nat)
  newCryptoKeyScript : Option (List Nat)
  putCryptoKeysFails : Bool
  putMasterKeyParamsFails : Bool

/-- Result of the internal `Manager.lock`: the new manager state together
with the heap objects the source zeroes in place just before dropping the
last reference to them (account xprivs, returned private-key scalars and
returned scripts). -/
structure LockResult where
  m : Manager
  zeroedAcctPrivs : List ExtKey
  zeroedPrivKeys : List Nat
  zeroedScripts : List (List Nat)

/-- The internal `Manager.lock` (part_000 lines 327-362): zero and nil all
account xprivs, zero every returned private key and script and drop both
maps, zero the crypto script/priv keys, the master private key and the
hashed passphrase, and set the locked flag.  `cryptoKeyPub` is deliberately
untouched. -/
def Manager.lockM (m : Manager) : LockResult :=
  let zeroedAcct := m.acctInfo.filterMap (fun e => e.2.acctKeyPriv.map ExtKey.zero)
  let acct' := m.acctInfo.map (fun e => (e.1, { e.2 with acctKeyPriv := none }))
  let zeroedPK := (m.returnedPrivKeys.getD []).map (fun _ => 0)
  let zeroedScr := (m.returnedScripts.getD []).map (fun e => zeroBytes e.2)
  { m := { m with
      acctInfo := acct'
      returnedPrivKeys := none
      returnedScripts := none
      cryptoKeyScript := m.cryptoKeyScript.map zeroBytes
      cryptoKeyPriv := m.cryptoKeyPriv.map zeroBytes
      masterKeyPriv := m.masterKeyPriv.map SecretKey.zero
      hashedPrivPassphrase := zeroBytes m.hashedPrivPassphrase
      locked := true }
    zeroedAcctPrivs := zeroedAcct
    zeroedPrivKeys := zeroedPK
    zeroedScripts := zeroedScr }

/-- Public `Manager.Lock` (lines 1207-1223): watching-only managers cannot
be locked, locking an already locked manager errors, otherwise the internal
`lock` runs. -/
def Manager.Lock (m : Manager) : Manager × Except MErr Unit :=
  if m.watchingOnly then (m, .error .watchingOnly)
  else if m.locked then (m, .error .locked)
  else ((m.lockM).m, .ok ())

/-- `Manager.zeroSensitivePublicData` (lines 367-377): zero and nil the
account xpubs, zero the crypto public key and the master public key. -/
def Manager.zeroSensitivePublicData (m : Manager) : Manager :=
  { m with
    acctInfo := m.acctInfo.map (fun e => (e.1, { e.2 with acctKeyPub := none }))
    cryptoKeyPub := zeroBytes m.cryptoKeyPub
    masterKeyPub := m.masterKeyPub.zero }

/-- `Manager.Close` (lines 387-401): lock if private material may be
present, zero sensitive public data, set the closed flag, return nil. -/
def Manager.Close (m : Manager) : Manager × Except MErr Unit :=
  let m1 := if !m.watchingOnly && !m.locked then (m.lockM).m else m
  ({ m1.zeroSensitivePublicData with closed := true }, .ok ())

/-- The account loop of `Manager.Unlock` (lines 1289-1307): decrypt each
cached account's wrapped xpriv with the crypto private key and regenerate
the extended key, stopping at the first failure.  Returns the (possibly
partially updated) cache together with the error, mirroring in-place map
mutation. -/
def unlockAccounts (env : Env) (ck : List Nat) :
    List (Nat × AccountInfo) → List (Nat × AccountInfo) × Option MErr
  | [] => ([], none)
  | (a, info) :: rest =>
    match env.decrypt ck info.acctKeyEncrypted with
    | none => ((a, info) :: rest, some .crypto)
    | some dec =>
      match env.parseKey dec with
      | none => ((a, info) :: rest, some .keyChain)
      | some kp =>
        let r := unlockAccounts env ck rest
        ((a, { info with acctKeyPriv := some kp }) :: r.1, r.2)

/-- `Manager.Unlock` (lines 1241-1314).  Watching-only managers reject the
call; an already unlocked manager takes the SHA-512 fast path; otherwise
the master private key is derived from the passphrase, the crypto private
key unwrapped, and every cached account xpriv regenerated.  Every failure
after the watching-only guard calls the internal `lock`. -/
def Manager.Unlock (env : Env) (m : Manager) (passphrase : List Nat) :
    Manager × Except MErr Unit :=
  if m.watchingOnly then (m, .error .watchingOnly)
  else if m.locked = false then
    let hashedPassphrase := env.sha512 (m.privPassphraseSalt ++ passphrase)
    if hashedPassphrase = m.hashedPrivPassphrase then (m, .ok ())
    else ((m.lockM).m, .error .wrongPassphrase)
  else
    match m.masterKeyPriv with
    | none => (m, .error .internalNil)
    | some mpk =>
      match env.derive mpk.params passphrase with
      | .error e =>
        ((m.lockM).m,
         .error (if e = .invalidPassword then .wrongPassphrase else .crypto))
      | .ok dk =>
        let m1 := { m with masterKeyPriv := some { mpk with key := dk } }
        match env.decrypt dk m1.cryptoKeyPrivEncrypted with
        | none => ((m1.lockM).m, .error .crypto)
        | some decryptedKey =>
          match m1.cryptoKeyPriv with
          | none => (m1, .error .internalNil)
          | some _ =>
            let m2 := { m1 with cryptoKeyPriv := some decryptedKey }
            let r := unlockAccounts env decryptedKey m2.acctInfo
            let m3 := { m2 with acctInfo := r.1 }
            match r.2 with
            | some e => ((m3.lockM).m, .error e)
            | none =>
              ({ m3 with
                  locked := false
                  hashedPrivPassphrase :=
                    env.sha512 (m3.privPassphraseSalt ++ passphrase) },
               .ok ())

/-- `Manager.MarkUsedChildIndex` (lines 1378-1414).  The receiver is unused
by the source; only the store row changes.  Comparisons add 1 with `uint32`
wrap-around so the sentinel orders below every real index; after raising
the used index the returned index is raised to at least match. -/
def Manager.MarkUsedChildIndex (_m : Manager)
    (accounts : List (Nat × AccountRow)) (account branch child : Nat) :
    Except MErr (List (Nat × AccountRow)) :=
  match alookup accounts account with
  | none => .error .notFound
  | some row =>
    let lastUsedExtIndex := if branch = ExternalBranch then child else row.lastUsedExternalIndex
    let lastUsedIntIndex := if branch = InternalBranch then child else row.lastUsedInternalIndex
    if branch = ExternalBranch ∨ branch = InternalBranch then
      if inc32 lastUsedExtIndex < inc32 row.lastUsedExternalIndex ∨
         inc32 lastUsedIntIndex < inc32 row.lastUsedInternalIndex then
        .ok accounts
      else
        let lastRetExtIndex :=
          dec32 (maxUint32 (inc32 lastUsedExtIndex) (inc32 row.lastReturnedExternalIndex))
        let lastRetIntIndex :=
          dec32 (maxUint32 (inc32 lastUsedIntIndex) (inc32 row.lastReturnedInternalIndex))
        let row' := bip0044AccountInfo row.pubKeyEncrypted row.privKeyEncrypted 0 0
          lastUsedExtIndex lastUsedIntIndex lastRetExtIndex lastRetIntIndex row.name
        .ok (aput accounts account row')
    else .error .branch

/-- `Manager.MarkReturnedChildIndex` (lines 1418-1454): never lowers the
stored last-returned index, and keeps it at least the last-used index. -/
def Manager.MarkReturnedChildIndex (_m : Manager)
    (accounts : List (Nat × AccountRow)) (account branch child : Nat) :
    Except MErr (List (Nat × AccountRow)) :=
  match alookup accounts account with
  | none => .error .notFound
  | some row =>
    let lastRetExtIndex := if branch = ExternalBranch then child else row.lastReturnedExternalIndex
    let lastRetIntIndex := if branch = InternalBranch then child else row.lastReturnedInternalIndex
    if branch = ExternalBranch ∨ branch = InternalBranch then
      if inc32 lastRetExtIndex < inc32 row.lastReturnedExternalIndex ∨
         inc32 lastRetIntIndex < inc32 row.lastReturnedInternalIndex then
        .ok accounts
      else
        let retExt := dec32 (maxUint32 (inc32 row.lastUsedExternalIndex) (inc32 lastRetExtIndex))
        let retInt := dec32 (maxUint32 (inc32 row.lastUsedInternalIndex) (inc32 lastRetIntIndex))
        let row' := bip0044AccountInfo row.pubKeyEncrypted row.privKeyEncrypted 0 0
          row.lastUsedExternalIndex row.lastUsedInternalIndex retExt retInt row.name
        .ok (aput accounts account row')
    else .error .branch

/-- `Manager.loadAccountInfo` (lines 484-541): serve from the cache, or
load from the database (row fetch, decrypt and parse of the xpub, and of
the xpriv too when unlocked — abstracted as `env.loadAcct`) and cache the
result. -/
def Manager.loadAccountInfo (env : Env) (m : Manager) (account : Nat) :
    Manager × Except MErr AccountInfo :=
  match alookup m.acctInfo account with
  | some info => (m, .ok info)
  | none =>
    match env.loadAcct account m.locked with
    | .error e => (m, .error e)
    | .ok info => ({ m with acctInfo := aput m.acctInfo account info }, .ok info)

/-- The derivation attempted for one loop iteration of
`syncAccountToAddrIndex`: `xpubBranch.Child(child)` followed (on success)
by the P2PKH hash of `xpubChild.Address(chainParams)`. -/
inductive ChildResult where
  | ok (h : Nat)
  | invalid
  | fail
deriving DecidableEq

/-- The child-to-address function induced by a branch xpub. -/
def childHash (env : Env) (xpubBranch : ExtKey) (child : Nat) : ChildResult :=
  match env.keyChild xpubBranch child with
  | .okK k => .ok (env.addrHash k)
  | .invalidK => .invalid
  | .failK => .fail

/-- Outcome of one downward scan of the sync loop: the loop returned
(`done`), errored (`failed`), or decremented `child = 0` with `continue`,
wrapping around to `^uint32(0)` (`wrapped`). -/
inductive PassOut where
  | done (a : AddrMap)
  | failed (e : MErr)
  | wrapped (a : AddrMap)
deriving DecidableEq

/-- One downward scan of the loop of `syncAccountToAddrIndex` (lines
1527-1553), from `child` down: skip `ErrInvalidChild` children, fail on
any other derivation error, stop at the first already-present address,
otherwise persist the chained row, and stop after processing child 0.
`continue` at child 0 wraps the `uint32` counter. -/
def syncPass (cf : Nat → ChildResult) (account branch : Nat) :
    Nat → AddrMap → PassOut
  | 0, a =>
    match cf 0 with
    | .invalid => .wrapped a
    | .fail => .failed .keyChain
    | .ok h =>
      if containsAddr a h then .done a
      else .done (aput a h (.chained account branch 0))
  | c + 1, a =>
    match cf (c + 1) with
    | .invalid => syncPass cf account branch c a
    | .fail => .failed .keyChain
    | .ok h =>
      if containsAddr a h then .done a
      else syncPass cf account branch c (aput a h (.chained account branch (c + 1)))

/-- The complete (possibly wrapping) loop of `syncAccountToAddrIndex`.  A
scan that reaches `continue` at child 0 restarts at `^uint32(0)`.  A third
wrap is only possible when every one of the 2^32 children derives with
`ErrInvalidChild`, in which case the Go loop never terminates; that
behaviour is modelled by the distinguished `diverges` error. -/
def syncLoop (cf : Nat → ChildResult) (account branch syncToIndex : Nat)
    (a : AddrMap) : Except MErr AddrMap :=
  match syncPass cf account branch syncToIndex a with
  | .done a1 => .ok a1
  | .failed e => .error e
  | .wrapped a1 =>
    match syncPass cf account branch U32Sentinel a1 with
    | .done a2 => .ok a2
    | .failed e => .error e
    | .wrapped a2 =>
      match syncPass cf account branch U32Sentinel a2 with
      | .done a3 => .ok a3
      | .failed e => .error e
      | .wrapped _ => .error .diverges

/-- Internal `Manager.syncAccountToAddrIndex` (lines 1468-1556): reject the
imported account, load the account info, derive the branch xpub (and, when
unlocked, the branch xpriv), enforce the maximum index, then run the
downward loop over the `addresses` bucket. -/
def Manager.syncAccountToAddrIndex (env : Env) (m : Manager)
    (account syncToIndex branch : Nat) (addrs : AddrMap) :
    Manager × Except MErr AddrMap :=
  if account = ImportedAddrAccount then (m, .error .invalidAccount)
  else
    match m.loadAccountInfo env account with
    | (m1, .error e) => (m1, .error e)
    | (m1, .ok acctInfo) =>
      if branch = ExternalBranch ∨ branch = InternalBranch then
        match acctInfo.acctKeyPub with
        | none => (m1, .error .internalNil)
        | some pubKey =>
          match env.keyChild pubKey branch with
          | .invalidK => (m1, .error .keyChain)
          | .failK => (m1, .error .keyChain)
          | .okK xpubBranch =>
            let xprivCheck : Except MErr Unit :=
              if m1.locked then .ok ()
              else
                match acctInfo.acctKeyPriv with
                | none => .error .internalNil
                | some privKey =>
                  match env.keyChild privKey branch with
                  | .okK _ => .ok ()
                  | .invalidK => .error .keyChain
                  | .failK => .error .keyChain
            match xprivCheck with
            | .error e => (m1, .error e)
            | .ok _ =>
              if syncToIndex > MaxAddressesPerAccount then
                (m1, .error .tooManyAddresses)
              else
                (m1, syncLoop (childHash env xpubBranch) account branch syncToIndex addrs)
      else (m1, .error .branch)

/-- Public `Manager.SyncAccountToAddrIndex` (lines 1560-1571): enforce the
maximum account number, then run the internal sync under the mutex. -/
def Manager.SyncAccountToAddrIndex (env : Env) (m : Manager)
    (account syncToIndex branch : Nat) (addrs : AddrMap) :
    Manager × Except MErr AddrMap :=
  if account > MaxAccountNum then (m, .error .accountNumTooHigh)
  else m.syncAccountToAddrIndex env account syncToIndex branch addrs

/-- `defaultAccountName = "default"`. -/
def defaultAccountName : String := "default"

/-- Modelled from the spec: `putAccountInfo` (db schema file not under
`src/`): write the account row and maintain the name index (§4.3; the
redundant number-to-name index is represented by the `name` field of the
row itself). -/
def putAccountInfoS (s : Store) (account : Nat) (row : AccountRow) : Store :=
  { s with
    accounts := aput s.accounts account row
    nameIndex := aput s.nameIndex row.name account }

/-- `Manager.NewAccount` (lines 1592-1692): requires non-watching and
unlocked; validates the name and rejects duplicates; assigns the successor
of the persisted last account number; derives the new account keys from
the wrapped coin-type private key; persists the row with both last-used
indexes at the sentinel and both last-returned indexes at 0; persists the
new last account number; returns the new account number. -/
def Manager.NewAccount (env : Env) (m : Manager) (s : Store) (name : String) :
    (Manager × Store) × Except MErr Nat :=
  if m.watchingOnly then ((m, s), .error .watchingOnly)
  else if m.locked then ((m, s), .error .locked)
  else if name = "" then ((m, s), .error .invalidAccount)
  else if name = ImportedAddrAccountName then ((m, s), .error .invalidAccount)
  else
    match alookup s.nameIndex name with
    | some _ => ((m, s), .error .duplicateAccount)
    | none =>
      let account := inc32 s.lastAccount
      match s.coinTypePrivEnc with
      | none => ((m, s), .error .notFound)
      | some coinTypePrivEnc =>
        match m.cryptoKeyPriv with
        | none => ((m, s), .error .internalNil)
        | some ck =>
          match env.decrypt ck coinTypePrivEnc with
          | none => ((m, s), .error .locked)
          | some serializedKeyPriv =>
            match env.parseKey serializedKeyPriv with
            | none => ((m, s), .error .keyChain)
            | some coinTypeKeyPriv =>
              if account > MaxAccountNum then ((m, s), .error .keyChain)
              else
                match env.keyChild coinTypeKeyPriv (account + HardenedKeyStart) with
                | .invalidK => ((m, s), .error .keyChain)
                | .failK => ((m, s), .error .keyChain)
                | .okK acctKeyPriv =>
                  match env.neuter acctKeyPriv with
                  | none => ((m, s), .error .keyChain)
                  | some acctKeyPub =>
                    match env.serializeKey acctKeyPub with
                    | none => ((m, s), .error .crypto)
                    | some apes =>
                      match env.encrypt m.cryptoKeyPub apes with
                      | none => ((m, s), .error .crypto)
                      | some acctPubEnc =>
                        match env.serializeKey acctKeyPriv with
                        | none => ((m, s), .error .crypto)
                        | some ppes =>
                          match env.encrypt ck ppes with
                          | none => ((m, s), .error .crypto)
                          | some acctPrivEnc =>
                            let row := bip0044AccountInfo acctPubEnc acctPrivEnc
                              0 0 U32Sentinel U32Sentinel 0 0 name
                            let s1 := putAccountInfoS s account row
                            let s2 := { s1 with lastAccount := account }
                            ((m, s2), .ok account)

/-- `putCryptoKeys` with the fallibility of the underlying store (an
`Option` argument of `none` leaves the corresponding wrapped key alone,
mirroring the `nil` arguments in the source). -/
def putCryptoKeysS (env : Env) (s : Store) (pubEnc privEnc scriptEnc : Option (List Nat)) :
    Except MErr Store :=
  if env.putCryptoKeysFails then .error .database
  else .ok { s with
    cryptoKeyPubEnc := pubEnc.getD s.cryptoKeyPubEnc
    cryptoKeyPrivEnc := match privEnc with | none => s.cryptoKeyPrivEnc | some e => some e
    cryptoKeyScriptEnc := match scriptEnc with | none => s.cryptoKeyScriptEnc | some e => some e }

/-- `putMasterKeyParams` with the fallibility of the underlying store. -/
def putMasterKeyParamsS (env : Env) (s : Store) (pubParams privParams : Option (List Nat)) :
    Except MErr Store :=
  if env.putMasterKeyParamsFails then .error .database
  else .ok { s with
    masterKeyPubParams := pubParams.getD s.masterKeyPubParams
    masterKeyPrivParams := match privParams with | none => s.masterKeyPrivParams | some p => some p }

/-- `Manager.ChangePassphrase` (lines 806-957).  The old passphrase is
verified on a fresh `snacl.SecretKey` copy sharing only the parameters of
the live master key; a failed authentication is reported as
`WrongPassphrase`.  The crypto keys are re-wrapped under a freshly
generated master key, persisted, and only then swapped into memory (the
old master key being zeroed at the swap). -/
def Manager.ChangePassphrase (env : Env) (m : Manager) (s : Store)
    (oldPassphrase newPassphrase : List Nat) (priv : Bool) :
    (Manager × Store) × Except MErr Unit :=
  if priv && m.watchingOnly then ((m, s), .error .watchingOnly)
  else
    match (if priv then m.masterKeyPriv else some m.masterKeyPub) with
    | none => ((m, s), .error .internalNil)
    | some liveKey =>
      match env.derive liveKey.params oldPassphrase with
      | .error .invalidPassword => ((m, s), .error .wrongPassphrase)
      | .error .other => ((m, s), .error .crypto)
      | .ok verifier =>
        match env.newSecretKey newPassphrase with
        | none => ((m, s), .error .crypto)
        | some newMasterKey =>
          let newKeyParams := newMasterKey.params
          if priv then
            match env.randSalt with
            | none => ((m, s), .error .crypto)
            | some passphraseSalt =>
              match env.decrypt verifier m.cryptoKeyPrivEncrypted with
              | none => ((m, s), .error .crypto)
              | some decPriv =>
                match env.encrypt newMasterKey.key decPriv with
                | none => ((m, s), .error .crypto)
                | some encPriv =>
                  match env.decrypt verifier m.cryptoKeyScriptEncrypted with
                  | none => ((m, s), .error .crypto)
                  | some decScript =>
                    match env.encrypt newMasterKey.key decScript with
                    | none => ((m, s), .error .crypto)
                    | some encScript =>
                      let newMK := if m.locked then newMasterKey.zero else newMasterKey
                      let hashedPassphrase :=
                        if m.locked then zeroBytes m.hashedPrivPassphrase
                        else env.sha512 (passphraseSalt ++ newPassphrase)
                      match putCryptoKeysS env s none (some encPriv) (some encScript) with
                      | .error e => ((m, s), .error e)
                      | .ok s1 =>
                        match putMasterKeyParamsS env s1 none (some newKeyParams) with
                        | .error e => ((m, s1), .error e)
                        | .ok s2 =>
                          (({ m with
                              cryptoKeyPrivEncrypted := goCopy m.cryptoKeyPrivEncrypted encPriv
                              cryptoKeyScriptEncrypted := goCopy m.cryptoKeyScriptEncrypted encScript
                              masterKeyPriv := some newMK
                              privPassphraseSalt := passphraseSalt
                              hashedPrivPassphrase := hashedPassphrase }, s2),
                           .ok ())
          else
            match env.encrypt newMasterKey.key m.cryptoKeyPub with
            | none => ((m, s), .error .crypto)
            | some encryptedPub =>
              match putCryptoKeysS env s (some encryptedPub) none none with
              | .error e => ((m, s), .error e)
              | .ok s1 =>
                match putMasterKeyParamsS env s1 (some newKeyParams) none with
                | .error e => ((m, s1), .error e)
                | .ok s2 =>
                  (({ m with masterKeyPub := newMasterKey }, s2), .ok ())

/-- Modelled from the spec: `deletePrivateKeys` (db schema file not under
`src/`).  Per §4.6/§7, it deletes every private-tier ciphertext from the
store: the master private key parameters, the wrapped crypto private and
script keys, the wrapped coin-type private key, the wrapped account xprivs
of every account row, and the wrapped private keys and scripts of every
imported address row. -/
def deletePrivateKeysS (s : Store) : Store :=
  { s with
    masterKeyPrivParams := none
    cryptoKeyPrivEnc := none
    cryptoKeyScriptEnc := none
    coinTypePrivEnc := none
    accounts := s.accounts.map (fun e => (e.1, { e.2 with privKeyEncrypted := [] }))
    addresses := s.addresses.map (fun e =>
      (e.1, match e.2 with
            | .chained acct br idx => .chained acct br idx
            | .importedKey encPub _ => .importedKey encPub []
            | .script encHash _ => .script encHash [])) }

/-- `putWatchingOnly`. -/
def putWatchingOnlyS (s : Store) (b : Bool) : Store := { s with watchingOnly := b }

/-- `Manager.ConvertToWatchingOnly` (lines 969-1037): a no-op on an already
watching-only manager; otherwise delete all private ciphertexts from the
store, persist the watching-only flag, lock if needed, then zero and
release every remaining piece of private-tier material in memory and mark
the manager watching-only. -/
def Manager.ConvertToWatchingOnly (m : Manager) (s : Store) :
    (Manager × Store) × Except MErr Unit :=
  if m.watchingOnly then ((m, s), .ok ())
  else
    let s1 := deletePrivateKeysS s
    let s2 := putWatchingOnlyS s1 true
    let m1 := if !m.locked then (m.lockM).m else m
    let m2 := { m1 with
      acctInfo := m1.acctInfo.map (fun e => (e.1, { e.2 with acctKeyEncrypted := [] }))
      returnedPrivKeys := none
      returnedScripts := none
      cryptoKeyScriptEncrypted := []
      cryptoKeyScript := none
      cryptoKeyPrivEncrypted := []
      cryptoKeyPriv := none
      masterKeyPriv := none
      watchingOnly := true }
    ((m2, s2), .ok ())

/-- `deriveKey` (lines 428-453): derive branch then child from the account
xpub or xpriv according to the private flag. -/
def deriveKeyE (env : Env) (info : AccountInfo) (branch index : Nat) (priv : Bool) :
    Except MErr ExtKey :=
  match (if priv then info.acctKeyPriv else info.acctKeyPub) with
  | none => .error .internalNil
  | some acctKey =>
    match env.keyChild acctKey branch with
    | .okK branchKey =>
      match env.keyChild branchKey index with
      | .okK addressKey => .ok addressKey
      | .invalidK => .error .keyChain
      | .failK => .error .keyChain
    | .invalidK => .error .keyChain
    | .failK => .error .keyChain

/-- `Manager.PrivateKey` (lines 1825-1916): reject watching-only and locked
managers, serve repeats from the returned-secrets map, then dispatch on the
fetched address row: chained rows re-derive the xpriv along the BIP0044
path and extract the scalar, imported rows decrypt the wrapped private key,
script rows are an input error.  The produced key is registered in the
returned-secrets map. -/
def Manager.PrivateKey (env : Env) (m : Manager) (addrs : AddrMap) (hash : Nat) :
    Manager × Except MErr Nat :=
  if m.watchingOnly then (m, .error .watchingOnly)
  else if m.locked then (m, .error .locked)
  else
    match (match m.returnedPrivKeys with
           | some l => alookup l hash
           | none => none) with
    | some key => (m, .ok key)
    | none =>
      match alookup addrs hash with
      | none => (m, .error .notFound)
      | some (.chained account branch index) =>
        match m.loadAccountInfo env account with
        | (m1, .error e) => (m1, .error e)
        | (m1, .ok info) =>
          match deriveKeyE env info branch index true with
          | .error e => (m1, .error e)
          | .ok xpriv =>
            match env.ecPriv xpriv with
            | none => (m1, .error .keyChain)
            | some key =>
              let rpk := some (aput (m1.returnedPrivKeys.getD []) hash key)
              ({ m1 with returnedPrivKeys := rpk }, .ok key)
      | some (.importedKey _ encryptedPrivKey) =>
        match m.cryptoKeyPriv with
        | none => (m, .error .internalNil)
        | some ck =>
          match env.decrypt ck encryptedPrivKey with
          | none => (m, .error .crypto)
          | some privKeyBytes =>
            let key := env.parsePrivScalar privKeyBytes
            let rpk := some (aput (m.returnedPrivKeys.getD []) hash key)
            ({ m with returnedPrivKeys := rpk }, .ok key)
      | some (.script _ _) => (m, .error .input)

/-- `Manager.RedeemScript` (lines 1922-1988): reject watching-only and
locked managers, serve repeats from the returned-secrets map, decrypt the
wrapped script for script rows, and report an input error for chained and
imported-key rows.  The produced script is registered in the
returned-secrets map. -/
def Manager.RedeemScript (env : Env) (m : Manager) (addrs : AddrMap) (hash : Nat) :
    Manager × Except MErr (List Nat) :=
  if m.watchingOnly then (m, .error .watchingOnly)
  else if m.locked then (m, .error .locked)
  else
    match (match m.returnedScripts with
           | some l => alookup l hash
           | none => none) with
    | some script => (m, .ok script)
    | none =>
      match alookup addrs hash with
      | none => (m, .error .notFound)
      | some (.script _ encryptedScript) =>
        match m.cryptoKeyScript with
        | none => (m, .error .internalNil)
        | some ck =>
          match env.decrypt ck encryptedScript with
          | none => (m, .error .crypto)
          | some script =>
            let rsc := some (aput (m.returnedScripts.getD []) hash script)
            ({ m with returnedScripts := rsc }, .ok script)
      | some (.chained _ _ _) => (m, .error .input)
      | some (.importedKey _ _) => (m, .error .input)

/-- The empty namespace produced by `createManagerNS`. -/
def emptyStore : Store :=
  { masterKeyPubParams := []
    masterKeyPrivParams := none
    cryptoKeyPubEnc := []
    cryptoKeyPrivEnc := none
    cryptoKeyScriptEnc := none
    coinTypePubEnc := []
    coinTypePrivEnc := none
    watchingOnly := false
    lastAccount := 0
    accounts := []
    nameIndex := []
    addresses := []
    nextToUsePool := [] }

/-- `DefaultAccountNum = 0`. -/
def DefaultAccountNumber : Nat := 0

/-- `deriveCoinTypeKey` (lines 2084-2112): enforce the maximum coin type,
then derive `m/44'/<coin type>'`. -/
def deriveCoinTypeKeyE (env : Env) (masterNode : ExtKey) (coinType : Nat) :
    Except MErr ExtKey :=
  if coinType > MaxAddressesPerAccount then .error .coinTypeTooHigh
  else
    match env.keyChild masterNode (44 + HardenedKeyStart) with
    | .okK purpose =>
      match env.keyChild purpose (coinType + HardenedKeyStart) with
      | .okK coinTypeKey => .ok coinTypeKey
      | .invalidK => .error .keyChain
      | .failK => .error .keyChain
    | .invalidK => .error .keyChain
    | .failK => .error .keyChain

/-- `checkBranchKeys` (lines 2141-2150): both branch children must derive
without `ErrInvalidChild`. -/
def checkBranchKeysE (env : Env) (acctKey : ExtKey) : Except MErr Unit :=
  match env.keyChild acctKey ExternalBranch with
  | .okK _ =>
    match env.keyChild acctKey InternalBranch with
    | .okK _ => .ok ()
    | .invalidK => .error .keyChain
    | .failK => .error .keyChain
  | .invalidK => .error .keyChain
  | .failK => .error .keyChain

/-- `createAddressManager` (lines 2242-2487): bootstrap a full manager
namespace from a seed.  The account rows for both the imported account and
the default account are written through
`bip0044AccountInfo(…, 0, 0, 0, 0, 0, 0, …)`, i.e. with every one of the
four last-used/last-returned branch indexes persisted as 0. -/
def createAddressManager (env : Env) (alreadyThere : Bool)
    (seed pubPassphrase privPassphrase : List Nat) (coinType : Nat) :
    Except MErr Store :=
  if alreadyThere then .error .alreadyExists
  else if privPassphrase = [] then .error .emptyPassphrase
  else
    match env.newMaster seed with
    | none => .error .keyChain
    | some root =>
      match deriveCoinTypeKeyE env root coinType with
      | .error e => .error e
      | .ok coinTypeKeyPriv =>
        match env.keyChild coinTypeKeyPriv (0 + HardenedKeyStart) with
        | .invalidK => .error .keyChain
        | .failK => .error .keyChain
        | .okK acctKeyPriv =>
          match checkBranchKeysE env acctKeyPriv with
          | .error e => .error e
          | .ok _ =>
            match env.neuter acctKeyPriv with
            | none => .error .keyChain
            | some acctKeyPub =>
              match env.newSecretKey pubPassphrase with
              | none => .error .crypto
              | some masterKeyPub =>
                match env.newSecretKey privPassphrase with
                | none => .error .crypto
                | some masterKeyPriv =>
                  match env.randSalt with
                  | none => .error .crypto
                  | some _privPassphraseSalt =>
                    match env.newCryptoKeyPub, env.newCryptoKeyPriv, env.newCryptoKeyScript with
                    | none, _, _ => .error .crypto
                    | _, none, _ => .error .crypto
                    | _, _, none => .error .crypto
                    | some cryptoKeyPub, some cryptoKeyPriv, some cryptoKeyScript =>
                      match env.encrypt masterKeyPub.key cryptoKeyPub,
                            env.encrypt masterKeyPriv.key cryptoKeyPriv,
                            env.encrypt masterKeyPriv.key cryptoKeyScript with
                      | none, _, _ => .error .crypto
                      | _, none, _ => .error .crypto
                      | _, _, none => .error .crypto
                      | some cryptoKeyPubEnc, some cryptoKeyPrivEnc, some cryptoKeyScriptEnc =>
                        match env.neuter coinTypeKeyPriv with
                        | none => .error .keyChain
                        | some coinTypeKeyPub =>
                          match env.serializeKey coinTypeKeyPub, env.serializeKey coinTypeKeyPriv with
                          | none, _ => .error .keyChain
                          | _, none => .error .keyChain
                          | some ctpes, some ctpesPriv =>
                            match env.encrypt cryptoKeyPub ctpes,
                                  env.encrypt cryptoKeyPriv ctpesPriv with
                            | none, _ => .error .crypto
                            | _, none => .error .crypto
                            | some coinTypePubEnc, some coinTypePrivEnc =>
                              match env.serializeKey acctKeyPub, env.serializeKey acctKeyPriv with
                              | none, _ => .error .keyChain
                              | _, none => .error .keyChain
                              | some apes, some apesPriv =>
                                match env.encrypt cryptoKeyPub apes,
                                      env.encrypt cryptoKeyPriv apesPriv with
                                | none, _ => .error .crypto
                                | _, none => .error .crypto
                                | some acctPubEnc, some acctPrivEnc =>
                                  let s0 := { emptyStore with
                                    masterKeyPubParams := masterKeyPub.params
                                    masterKeyPrivParams := some masterKeyPriv.params
                                    cryptoKeyPubEnc := cryptoKeyPubEnc
                                    cryptoKeyPrivEnc := some cryptoKeyPrivEnc
                                    cryptoKeyScriptEnc := some cryptoKeyScriptEnc
                                    coinTypePubEnc := coinTypePubEnc
                                    coinTypePrivEnc := some coinTypePrivEnc
                                    watchingOnly := false
                                    nextToUsePool := aput (aput [] (0, false) 0) (0, true) 0 }
                                  let importedRow := bip0044AccountInfo [] [] 0 0 0 0 0 0
                                    ImportedAddrAccountName
                                  let s1 := putAccountInfoS s0 ImportedAddrAccount importedRow
                                  let defaultRow := bip0044AccountInfo acctPubEnc acctPrivEnc
                                    0 0 0 0 0 0 defaultAccountName
                                  .ok (putAccountInfoS s1 DefaultAccountNumber defaultRow)

/-- `createWatchOnly` (lines 2498-2683): bootstrap a watching-only manager
namespace from an account xpub string.  Note the source wraps the account
xpub string a second time (under the crypto private key) as the "private"
account ciphertext, and both account rows are again persisted through
`bip0044AccountInfo(…, 0, 0, 0, 0, 0, 0, …)`. -/
def createWatchOnly (env : Env) (alreadyThere : Bool)
    (hdPubKey : List Nat) (pubPassphrase : List Nat) : Except MErr Store :=
  if alreadyThere then .error .alreadyExists
  else
    match env.parseKey hdPubKey with
    | none => .error .keyChain
    | some acctKeyPub =>
      if !env.isForNet acctKeyPub then .error .wrongNet
      else
        match checkBranchKeysE env acctKeyPub with
        | .error e => .error e
        | .ok _ =>
          match env.newSecretKey pubPassphrase with
          | none => .error .crypto
          | some masterKeyPub =>
            match env.newSecretKey pubPassphrase with
            | none => .error .crypto
            | some masterKeyPriv =>
              match env.randSalt with
              | none => .error .crypto
              | some _privPassphraseSalt =>
                match env.newCryptoKeyPub, env.newCryptoKeyPriv, env.newCryptoKeyScript with
                | none, _, _ => .error .crypto
                | _, none, _ => .error .crypto
                | _, _, none => .error .crypto
                | some cryptoKeyPub, some cryptoKeyPriv, some cryptoKeyScript =>
                  match env.encrypt masterKeyPub.key cryptoKeyPub,
                        env.encrypt masterKeyPriv.key cryptoKeyPriv,
                        env.encrypt masterKeyPriv.key cryptoKeyScript with
                  | none, _, _ => .error .crypto
                  | _, none, _ => .error .crypto
                  | _, _, none => .error .crypto
                  | some cryptoKeyPubEnc, some cryptoKeyPrivEnc, some cryptoKeyScriptEnc =>
                    match env.serializeKey acctKeyPub, env.serializeKey acctKeyPub with
                    | none, _ => .error .keyChain
                    | _, none => .error .keyChain
                    | some apes, some apesAgain =>
                      match env.encrypt cryptoKeyPub apes,
                            env.encrypt cryptoKeyPriv apesAgain with
                      | none, _ => .error .crypto
                      | _, none => .error .crypto
                      | some acctPubEnc, some acctPrivEnc =>
                        let s0 := { emptyStore with
                          masterKeyPubParams := masterKeyPub.params
                          masterKeyPrivParams := some masterKeyPriv.params
                          cryptoKeyPubEnc := cryptoKeyPubEnc
                          cryptoKeyPrivEnc := some cryptoKeyPrivEnc
                          cryptoKeyScriptEnc := some cryptoKeyScriptEnc
                          watchingOnly := true
                          nextToUsePool := aput (aput [] (0, false) 0) (0, true) 0 }
                        let importedRow := bip0044AccountInfo [] [] 0 0 0 0 0 0
                          ImportedAddrAccountName
                        let s1 := putAccountInfoS s0 ImportedAddrAccount importedRow
                        let defaultRow := bip0044AccountInfo acctPubEnc acctPrivEnc
                          0 0 0 0 0 0 defaultAccountName
                        .ok (putAccountInfoS s1 DefaultAccountNumber defaultRow)

/-- The bytes produced by `zero.Bytes` are all zero. -/
theorem allZero_zeroBytes (b : List Nat) : allZero (zeroBytes b) := by
  intro x hx
  simp [zeroBytes] at hx
  exact hx.2

/-- An optional byte slice that is absent or all-zero. -/
def optAllZero : Option (List Nat) → Prop
  | none => True
  | some k => allZero k

instance (o : Option (List Nat)) : Decidable (optAllZero o) := by
  cases o <;> unfold optAllZero <;> infer_instance

/-- An optional secret key that is absent or has an all-zero key. -/
def optKeyZero : Option SecretKey → Prop
  | none => True
  | some sk => allZero sk.key

instance (o : Option SecretKey) : Decidable (optKeyZero o) := by
  cases o <;> unfold optKeyZero <;> infer_instance

theorem optAllZero_map_zeroBytes (o : Option (List Nat)) :
    optAllZero (o.map zeroBytes) := by
  cases o with
  | none => trivial
  | some k => exact allZero_zeroBytes k

theorem optKeyZero_map_zero (o : Option SecretKey) :
    optKeyZero (o.map SecretKey.zero) := by
  cases o with
  | none => trivial
  | some sk => exact allZero_zeroBytes sk.key

/-- No unwrapped private-tier material is reachable from the manager state:
every cached account xpriv is gone, both returned-secrets maps are dropped,
and the crypto private/script keys, the master private key and the hashed
passphrase hold only zero bytes (or are released). -/
def privMaterialCleared (m : Manager) : Prop :=
  (∀ e ∈ m.acctInfo, e.2.acctKeyPriv = none) ∧
  m.returnedPrivKeys = none ∧
  m.returnedScripts = none ∧
  optAllZero m.cryptoKeyPriv ∧
  optAllZero m.cryptoKeyScript ∧
  optKeyZero m.masterKeyPriv ∧
  allZero m.hashedPrivPassphrase

instance (m : Manager) : Decidable (privMaterialCleared m) := by
  unfold privMaterialCleared; infer_instance

/-- The internal `lock` clears all private material and sets the flag. -/
theorem lockM_cleared (m : Manager) :
    privMaterialCleared (m.lockM).m ∧ (m.lockM).m.locked = true := by
  refine ⟨⟨?_, rfl, rfl, ?_, ?_, ?_, ?_⟩, rfl⟩
  · intro e he
    simp only [Manager.lockM, List.mem_map] at he
    obtain ⟨x, -, h⟩ := he
    rw [← h]
  · exact optAllZero_map_zeroBytes _
  · exact optAllZero_map_zeroBytes _
  · exact optKeyZero_map_zero _
  · exact allZero_zeroBytes _

/-- Locking leaves every other field of the manager alone except the ones
it clears; in particular the crypto public key is retained. -/
theorem lockM_cryptoKeyPub (m : Manager) :
    (m.lockM).m.cryptoKeyPub = m.cryptoKeyPub := rfl

/-- C2.  After the internal `lock()` completes, every cached account
extended private key object is zeroed and the cache entry nil, every entry
of the returned private-key and returned script maps is zeroed and both
maps are dropped, the crypto private key, crypto script key, master
private key and hashed private passphrase hold only zeroes, the locked
flag is true, and the crypto public key is deliberately retained; a
successful public `Lock()` performs exactly this internal `lock()`. -/
theorem c2_lock_zeroizes (m : Manager) :
    ((m.Lock).2 = .ok () → (m.Lock).1 = (m.lockM).m) ∧
    (∀ e ∈ (m.lockM).m.acctInfo, e.2.acctKeyPriv = none) ∧
    (∀ k ∈ (m.lockM).zeroedAcctPrivs, k.isZeroed) ∧
    (m.lockM).m.returnedPrivKeys = none ∧
    (m.lockM).m.returnedScripts = none ∧
    (∀ d ∈ (m.lockM).zeroedPrivKeys, d = 0) ∧
    (∀ sc ∈ (m.lockM).zeroedScripts, allZero sc) ∧
    optAllZero (m.lockM).m.cryptoKeyPriv ∧
    optAllZero (m.lockM).m.cryptoKeyScript ∧
    optKeyZero (m.lockM).m.masterKeyPriv ∧
    allZero (m.lockM).m.hashedPrivPassphrase ∧
    (m.lockM).m.locked = true ∧
    (m.lockM).m.cryptoKeyPub = m.cryptoKeyPub := by
  obtain ⟨⟨h1, h2, h3, h4, h5, h6, h7⟩, hlock⟩ := lockM_cleared m
  refine ⟨?_, h1, ?_, h2, h3, ?_, ?_, h4, h5, h6, h7, hlock, rfl⟩
  · intro hok
    unfold Manager.Lock at hok ⊢
    by_cases hw : m.watchingOnly <;> simp [hw] at hok ⊢
    by_cases hl : m.locked <;> simp [hl] at hok ⊢
  · intro k hk
    simp only [Manager.lockM, List.mem_filterMap] at hk
    obtain ⟨x, -, hmap⟩ := hk
    cases hopt : x.2.acctKeyPriv with
    | none => rw [hopt] at hmap; cases hmap
    | some k0 =>
      rw [hopt] at hmap
      cases hmap
      exact allZero_zeroBytes _
  · intro d hd
    simp only [Manager.lockM, List.mem_map] at hd
    obtain ⟨x, -, h⟩ := hd
    exact h.symm
  · intro sc hsc
    simp only [Manager.lockM, List.mem_map] at hsc
    obtain ⟨x, -, h⟩ := hsc
    rw [← h]
    exact allZero_zeroBytes _

/-- A concrete unlocked, non-watching manager for exercising C2. -/
def c2mgr : Manager :=
  { returnedPrivKeys := some [(1, 5)]
    returnedScripts := some [(2, [7, 8])]
    watchingOnly := false
    locked := false
    closed := false
    acctInfo := [(0, ⟨"default", [9], some ⟨[3]⟩, some ⟨[4]⟩⟩)]
    masterKeyPub := ⟨[1], [2]⟩
    masterKeyPriv := some ⟨[3], [4]⟩
    cryptoKeyPub := [5]
    cryptoKeyPrivEncrypted := [6]
    cryptoKeyPriv := some [7]
    cryptoKeyScriptEncrypted := [8]
    cryptoKeyScript := some [9]
    privPassphraseSalt := [1]
    hashedPrivPassphrase := [2] }

/-- Witness for C2 at a concrete unlocked manager: the hypothesis of the
bridging conjunct is discharged by evaluation. -/
theorem c2_lock_zeroizes_witness :
    (c2mgr.Lock).2 = .ok () ∧ (c2mgr.Lock).1 = (c2mgr.lockM).m :=
  ⟨rfl, (c2_lock_zeroizes c2mgr).1 rfl⟩

/-- A deterministic environment in which every fallible collaborator
operation fails; used to exercise guard paths. -/
def failEnv : Env :=
  { derive := fun _ _ => .error .other
    decrypt := fun _ _ => none
    encrypt := fun _ _ => none
    sha512 := fun b => b
    newSecretKey := fun _ => none
    randSalt := none
    parseKey := fun _ => none
    keyChild := fun _ _ => .failK
    neuter := fun _ => none
    serializeKey := fun _ => none
    addrHash := fun _ => 0
    loadAcct := fun _ _ => .error .notFound
    ecPriv := fun _ => none
    parsePrivScalar := fun _ => 0
    newMaster := fun _ => none
    isForNet := fun _ => false
    newCryptoKeyPub := none
    newCryptoKeyPriv := none
    newCryptoKeyScript := none
    putCryptoKeysFails := true
    putMasterKeyParamsFails := true }

/-- C6.  On a watching-only manager, `Lock`, `Unlock`,
`ChangePassphrase(private=true)`, `NewAccount`, `PrivateKey` and
`RedeemScript` all fail with the `WatchingOnly` error and change neither
the manager nor the store. -/
theorem c6_watching_only_rejects (env : Env) (m : Manager) (s : Store)
    (addrs : AddrMap) (pass oldPass newPass : List Nat) (name : String)
    (hash : Nat) (hw : m.watchingOnly = true) :
    m.Lock = (m, .error .watchingOnly) ∧
    m.Unlock env pass = (m, .error .watchingOnly) ∧
    m.ChangePassphrase env s oldPass newPass true = ((m, s), .error .watchingOnly) ∧
    m.NewAccount env s name = ((m, s), .error .watchingOnly) ∧
    m.PrivateKey env addrs hash = (m, .error .watchingOnly) ∧
    m.RedeemScript env addrs hash = (m, .error .watchingOnly) := by
  refine ⟨?_, ?_, ?_, ?_, ?_, ?_⟩
  · unfold Manager.Lock
    simp [hw]
  · unfold Manager.Unlock
    simp [hw]
  · unfold Manager.ChangePassphrase
    simp [hw]
  · unfold Manager.NewAccount
    simp [hw]
  · unfold Manager.PrivateKey
    simp [hw]
  · unfold Manager.RedeemScript
    simp [hw]

/-- A concrete watching-only manager. -/
def c6mgr : Manager :=
  { returnedPrivKeys := none
    returnedScripts := none
    watchingOnly := true
    locked := true
    closed := false
    acctInfo := []
    masterKeyPub := ⟨[1], [2]⟩
    masterKeyPriv := none
    cryptoKeyPub := [5]
    cryptoKeyPrivEncrypted := []
    cryptoKeyPriv := none
    cryptoKeyScriptEncrypted := []
    cryptoKeyScript := none
    privPassphraseSalt := [1]
    hashedPrivPassphrase := [0] }

/-- A concrete store for exercising the operations. -/
def c6store : Store :=
  { masterKeyPubParams := [1]
    masterKeyPrivParams := none
    cryptoKeyPubEnc := [2]
    cryptoKeyPrivEnc := none
    cryptoKeyScriptEnc := none
    coinTypePubEnc := [3]
    coinTypePrivEnc := none
    watchingOnly := true
    lastAccount := 0
    accounts := []
    nameIndex := []
    addresses := []
    nextToUsePool := [] }

/-- Witness for C6 on a concrete watching-only manager. -/
theorem c6_watching_only_rejects_witness :
    c6mgr.Lock = (c6mgr, .error .watchingOnly) ∧
    c6mgr.Unlock failEnv [1] = (c6mgr, .error .watchingOnly) ∧
    c6mgr.ChangePassphrase failEnv c6store [1] [2] true =
      ((c6mgr, c6store), .error .watchingOnly) ∧
    c6mgr.NewAccount failEnv c6store "acct" = ((c6mgr, c6store), .error .watchingOnly) ∧
    c6mgr.PrivateKey failEnv [] 0 = (c6mgr, .error .watchingOnly) ∧
    c6mgr.RedeemScript failEnv [] 0 = (c6mgr, .error .watchingOnly) :=
  c6_watching_only_rejects failEnv c6mgr c6store [] [1] [1] [2] "acct" 0 rfl

theorem inc32_lt (x : Nat) : inc32 x < 4294967296 := by
  unfold inc32; omega

theorem dec32_inc32 {x : Nat} (h : x < 4294967296) : dec32 (inc32 x) = x := by
  unfold inc32 dec32; omega

theorem inc32_dec32 {y : Nat} (h : y < 4294967296) : inc32 (dec32 y) = y := by
  unfold inc32 dec32; omega

theorem inc32_inj {a b : Nat} (ha : a < 4294967296) (hb : b < 4294967296)
    (h : inc32 a = inc32 b) : a = b := by
  unfold inc32 at h; omega

theorem maxUint32_eq_right {a b : Nat} (h : a ≤ b) : maxUint32 a b = b := by
  unfold maxUint32; split <;> omega

theorem le_maxUint32_left (a b : Nat) : a ≤ maxUint32 a b := by
  unfold maxUint32; split <;> omega

theorem le_maxUint32_right (a b : Nat) : b ≤ maxUint32 a b := by
  unfold maxUint32; split <;> omega

theorem maxUint32_lt {a b n : Nat} (ha : a < n) (hb : b < n) : maxUint32 a b < n := by
  unfold maxUint32; split <;> omega

theorem alookup_aput {κ β : Type} [DecidableEq κ] (l : List (κ × β)) (k : κ) (v : β) :
    alookup (aput l k v) k = some v := by
  induction l with
  | nil => simp [aput, alookup]
  | cons e t ih =>
    by_cases h : e.1 = k
    · simp [aput, alookup, h]
    · simp [aput, alookup, h, ih]

theorem aput_eq_self {κ β : Type} [DecidableEq κ] {l : List (κ × β)} {k : κ} {v : β}
    (h : alookup l k = some v) : aput l k v = l := by
  induction l with
  | nil => simp [alookup] at h
  | cons e t ih =>
    by_cases he : e.1 = k
    · simp [alookup, he] at h
      cases e
      simp_all [aput]
    · simp [alookup, he] at h
      simp [aput, he, ih h]

/-- The `uint32` well-formedness of a stored account row. -/
def rowU32 (r : AccountRow) : Prop :=
  r.lastUsedExternalIndex < 4294967296 ∧ r.lastUsedInternalIndex < 4294967296 ∧
  r.lastReturnedExternalIndex < 4294967296 ∧ r.lastReturnedInternalIndex < 4294967296

instance (r : AccountRow) : Decidable (rowU32 r) := by
  unfold rowU32; infer_instance

/-- C4.  `MarkUsedChildIndex` and `MarkReturnedChildIndex` are monotone and
idempotent: with a child that is equal to or below the stored index in the
wrapped `index + 1` ordering (under which the sentinel orders below every
real index) the store is unchanged; and after any successful
`MarkUsedChildIndex` the stored last-returned index of each branch is at
least the stored last-used index in that ordering. -/
theorem c4_mark_idempotent_monotone (m : Manager)
    (accounts : List (Nat × AccountRow)) (account branch child : Nat)
    (row : AccountRow)
    (hrow : alookup accounts account = some row)
    (hw : rowU32 row) (hc : child < 4294967296)
    (hinvE : inc32 row.lastUsedExternalIndex ≤ inc32 row.lastReturnedExternalIndex)
    (hinvI : inc32 row.lastUsedInternalIndex ≤ inc32 row.lastReturnedInternalIndex) :
    (branch = ExternalBranch → inc32 child ≤ inc32 row.lastUsedExternalIndex →
       m.MarkUsedChildIndex accounts account branch child = .ok accounts) ∧
    (branch = InternalBranch → inc32 child ≤ inc32 row.lastUsedInternalIndex →
       m.MarkUsedChildIndex accounts account branch child = .ok accounts) ∧
    (branch = ExternalBranch → inc32 child ≤ inc32 row.lastReturnedExternalIndex →
       m.MarkReturnedChildIndex accounts account branch child = .ok accounts) ∧
    (branch = InternalBranch → inc32 child ≤ inc32 row.lastReturnedInternalIndex →
       m.MarkReturnedChildIndex accounts account branch child = .ok accounts) ∧
    (∀ accounts2,
       m.MarkUsedChildIndex accounts account branch child = .ok accounts2 →
       ∃ row2, alookup accounts2 account = some row2 ∧
         inc32 row2.lastUsedExternalIndex ≤ inc32 row2.lastReturnedExternalIndex ∧
         inc32 row2.lastUsedInternalIndex ≤ inc32 row2.lastReturnedInternalIndex) := by
  obtain ⟨hwUE, hwUI, hwRE, hwRI⟩ := hw
  refine ⟨?_, ?_, ?_, ?_, ?_⟩
  · intro hb hle
    subst hb
    simp [Manager.MarkUsedChildIndex, hrow, ExternalBranch, InternalBranch]
    intro hge
    have heq : inc32 child = inc32 row.lastUsedExternalIndex := le_antisymm hle hge
    have hchild : child = row.lastUsedExternalIndex := inc32_inj hc hwUE heq
    have hr : bip0044AccountInfo row.pubKeyEncrypted row.privKeyEncrypted 0 0
        child row.lastUsedInternalIndex
        (dec32 (maxUint32 (inc32 child) (inc32 row.lastReturnedExternalIndex)))
        (dec32 (maxUint32 (inc32 row.lastUsedInternalIndex) (inc32 row.lastReturnedInternalIndex)))
        row.name = row := by
      rw [hchild, maxUint32_eq_right hinvE, maxUint32_eq_right hinvI,
        dec32_inc32 hwRE, dec32_inc32 hwRI]
      cases row; rfl
    rw [hr]
    exact aput_eq_self hrow
  · intro hb hle
    subst hb
    simp [Manager.MarkUsedChildIndex, hrow, ExternalBranch, InternalBranch]
    intro hge
    have heq : inc32 child = inc32 row.lastUsedInternalIndex := le_antisymm hle hge
    have hchild : child = row.lastUsedInternalIndex := inc32_inj hc hwUI heq
    have hr : bip0044AccountInfo row.pubKeyEncrypted row.privKeyEncrypted 0 0
        row.lastUsedExternalIndex child
        (dec32 (maxUint32 (inc32 row.lastUsedExternalIndex) (inc32 row.lastReturnedExternalIndex)))
        (dec32 (maxUint32 (inc32 child) (inc32 row.lastReturnedInternalIndex)))
        row.name = row := by
      rw [hchild, maxUint32_eq_right hinvE, maxUint32_eq_right hinvI,
        dec32_inc32 hwRE, dec32_inc32 hwRI]
      cases row; rfl
    rw [hr]
    exact aput_eq_self hrow
  · intro hb hle
    subst hb
    simp [Manager.MarkReturnedChildIndex, hrow, ExternalBranch, InternalBranch]
    intro hge
    have heq : inc32 child = inc32 row.lastReturnedExternalIndex := le_antisymm hle hge
    have hchild : child = row.lastReturnedExternalIndex := inc32_inj hc hwRE heq
    have hr : bip0044AccountInfo row.pubKeyEncrypted row.privKeyEncrypted 0 0
        row.lastUsedExternalIndex row.lastUsedInternalIndex
        (dec32 (maxUint32 (inc32 row.lastUsedExternalIndex) (inc32 child)))
        (dec32 (maxUint32 (inc32 row.lastUsedInternalIndex) (inc32 row.lastReturnedInternalIndex)))
        row.name = row := by
      rw [hchild, maxUint32_eq_right hinvE, maxUint32_eq_right hinvI,
        dec32_inc32 hwRE, dec32_inc32 hwRI]
      cases row; rfl
    rw [hr]
    exact aput_eq_self hrow
  · intro hb hle
    subst hb
    simp [Manager.MarkReturnedChildIndex, hrow, ExternalBranch, InternalBranch]
    intro hge
    have heq : inc32 child = inc32 row.lastReturnedInternalIndex := le_antisymm hle hge
    have hchild : child = row.lastReturnedInternalIndex := inc32_inj hc hwRI heq
    have hr : bip0044AccountInfo row.pubKeyEncrypted row.privKeyEncrypted 0 0
        row.lastUsedExternalIndex row.lastUsedInternalIndex
        (dec32 (maxUint32 (inc32 row.lastUsedExternalIndex) (inc32 row.lastReturnedExternalIndex)))
        (dec32 (maxUint32 (inc32 row.lastUsedInternalIndex) (inc32 child)))
        row.name = row := by
      rw [hchild, maxUint32_eq_right hinvE, maxUint32_eq_right hinvI,
        dec32_inc32 hwRE, dec32_inc32 hwRI]
      cases row; rfl
    rw [hr]
    exact aput_eq_self hrow
  · intro accounts2 hok
    by_cases hbE : branch = ExternalBranch
    · subst hbE
      simp [Manager.MarkUsedChildIndex, hrow, ExternalBranch, InternalBranch] at hok
      split at hok
      · cases hok
        exact ⟨row, hrow, hinvE, hinvI⟩
      · cases hok
        refine ⟨_, alookup_aput _ _ _, ?_, ?_⟩
        · show inc32 child ≤
            inc32 (dec32 (maxUint32 (inc32 child) (inc32 row.lastReturnedExternalIndex)))
          rw [inc32_dec32 (maxUint32_lt (inc32_lt _) (inc32_lt _))]
          exact le_maxUint32_left _ _
        · show inc32 row.lastUsedInternalIndex ≤
            inc32 (dec32 (maxUint32 (inc32 row.lastUsedInternalIndex) (inc32 row.lastReturnedInternalIndex)))
          rw [inc32_dec32 (maxUint32_lt (inc32_lt _) (inc32_lt _))]
          exact le_maxUint32_left _ _
    · by_cases hbI : branch = InternalBranch
      · subst hbI
        simp [Manager.MarkUsedChildIndex, hrow, ExternalBranch, InternalBranch] at hok
        split at hok
        · cases hok
          exact ⟨row, hrow, hinvE, hinvI⟩
        · cases hok
          refine ⟨_, alookup_aput _ _ _, ?_, ?_⟩
          · show inc32 row.lastUsedExternalIndex ≤
              inc32 (dec32 (maxUint32 (inc32 row.lastUsedExternalIndex) (inc32 row.lastReturnedExternalIndex)))
            rw [inc32_dec32 (maxUint32_lt (inc32_lt _) (inc32_lt _))]
            exact le_maxUint32_left _ _
          · show inc32 child ≤
              inc32 (dec32 (maxUint32 (inc32 child) (inc32 row.lastReturnedInternalIndex)))
            rw [inc32_dec32 (maxUint32_lt (inc32_lt _) (inc32_lt _))]
            exact le_maxUint32_left _ _
      · simp only [ExternalBranch] at hbE
        simp only [InternalBranch] at hbI
        simp [Manager.MarkUsedChildIndex, hrow, hbE, hbI,
          ExternalBranch, InternalBranch] at hok

/-- A concrete stored account row: used-external 5, used-internal at the
sentinel, returned-external 7, returned-internal 0. -/
def c4row : AccountRow := ⟨[1], [2], 5, 4294967295, 7, 0, "default"⟩

/-- A concrete accounts bucket. -/
def c4accounts : List (Nat × AccountRow) := [(0, c4row)]

/-- A concrete manager receiver (its state is ignored by the two
mark-index operations, mirroring the unused Go receiver). -/
def c4mgr : Manager := c6mgr

/-- Witness for C4: replaying the stored indexes back into
`MarkUsedChildIndex` and `MarkReturnedChildIndex` leaves the store
bit-identical. -/
theorem c4_mark_idempotent_monotone_witness :
    Manager.MarkUsedChildIndex c4mgr c4accounts 0 0 5 = .ok c4accounts ∧
    Manager.MarkReturnedChildIndex c4mgr c4accounts 0 0 7 = .ok c4accounts := by
  have h5 := c4_mark_idempotent_monotone c4mgr c4accounts 0 0 5 c4row
    (by decide) (by decide) (by decide) (by decide) (by decide)
  have h7 := c4_mark_idempotent_monotone c4mgr c4accounts 0 0 7 c4row
    (by decide) (by decide) (by decide) (by decide) (by decide)
  exact ⟨h5.1 rfl (by decide), h7.2.2.1 rfl (by decide)⟩

theorem inc32_eq_succ {x : Nat} (h : x < 4294967295) : inc32 x = x + 1 := by
  unfold inc32; omega

/-- C5.  On an unlocked, non-watching manager with a valid, non-reserved,
non-duplicate name, a successful `NewAccount` returns `last_account + 1`,
persists that number as the new last account, and writes the account row
with both last-used indexes at the sentinel `0xFFFFFFFF` and both
last-returned indexes at 0. -/
theorem c5_new_account (env : Env) (m : Manager) (s : Store) (name : String)
    (n : Nat) (m2 : Manager) (s2 : Store)
    (hwo : m.watchingOnly = false) (hl : m.locked = false)
    (hn1 : name ≠ "") (hn2 : name ≠ ImportedAddrAccountName)
    (hdup : alookup s.nameIndex name = none)
    (hlast : s.lastAccount ≤ MaxAccountNum)
    (hrun : m.NewAccount env s name = ((m2, s2), .ok n)) :
    n = s.lastAccount + 1 ∧
    s2.lastAccount = n ∧
    ∃ row, alookup s2.accounts n = some row ∧
      row.lastUsedExternalIndex = U32Sentinel ∧
      row.lastUsedInternalIndex = U32Sentinel ∧
      row.lastReturnedExternalIndex = 0 ∧
      row.lastReturnedInternalIndex = 0 ∧
      row.name = name := by
  have hx : s.lastAccount < 4294967295 := by
    unfold MaxAccountNum HardenedKeyStart at hlast; omega
  unfold Manager.NewAccount at hrun
  rw [inc32_eq_succ hx] at hrun
  simp [hwo, hl, hn1, hn2, hdup] at hrun
  repeat' split at hrun
  all_goals simp_all
  obtain ⟨⟨hm2, hs2⟩, hn⟩ := hrun
  subst hn
  subst hs2
  exact ⟨rfl, ⟨_, alookup_aput _ _ _, rfl, rfl, rfl, rfl, rfl⟩⟩

/-- A deterministic environment in which every collaborator operation
succeeds. -/
def okEnv : Env :=
  { derive := fun _ p => .ok p
    decrypt := fun _ c => some c
    encrypt := fun _ b => some b
    sha512 := fun b => b
    newSecretKey := fun p => some ⟨p, p⟩
    randSalt := some [3]
    parseKey := fun b => some ⟨b⟩
    keyChild := fun k _ => .okK k
    neuter := fun k => some k
    serializeKey := fun k => some k.bytes
    addrHash := fun k => k.bytes.headD 0
    loadAcct := fun _ _ => .error .notFound
    ecPriv := fun _ => some 1
    parsePrivScalar := fun _ => 1
    newMaster := fun b => some ⟨b⟩
    isForNet := fun _ => true
    newCryptoKeyPub := some [1]
    newCryptoKeyPriv := some [2]
    newCryptoKeyScript := some [3]
    putCryptoKeysFails := false
    putMasterKeyParamsFails := false }

/-- A concrete unlocked, non-watching manager for C5. -/
def c5mgr : Manager := { c2mgr with locked := false }

/-- A concrete store with one existing (default) account. -/
def c5store : Store :=
  { c6store with
    watchingOnly := false
    coinTypePrivEnc := some [9]
    lastAccount := 0
    accounts := [(0, ⟨[1], [2], 0, 0, 0, 0, "default"⟩)]
    nameIndex := [("default", 0)] }

/-- Witness for C5: creating "savings" on the concrete store yields
account 1, persists it, and writes sentinel used / zero returned
indexes. -/
theorem c5_new_account_witness :
    (1 : Nat) = c5store.lastAccount + 1 ∧
    ((c5mgr.NewAccount okEnv c5store "savings").1.2).lastAccount = 1 ∧
    ∃ row, alookup ((c5mgr.NewAccount okEnv c5store "savings").1.2).accounts 1 = some row ∧
      row.lastUsedExternalIndex = U32Sentinel ∧
      row.lastUsedInternalIndex = U32Sentinel ∧
      row.lastReturnedExternalIndex = 0 ∧
      row.lastReturnedInternalIndex = 0 ∧
      row.name = "savings" :=
  c5_new_account okEnv c5mgr c5store "savings" 1
    ((c5mgr.NewAccount okEnv c5store "savings").1.1)
    ((c5mgr.NewAccount okEnv c5store "savings").1.2)
    rfl rfl (by decide) (by decide) (by decide) (by decide) rfl

/-- The private-tier ciphertext field of an address row is empty. -/
def addrRowPrivEmpty : AddrRow → Prop
  | .chained _ _ _ => True
  | .importedKey _ encPriv => encPriv = []
  | .script _ encScript => encScript = []

instance (r : AddrRow) : Decidable (addrRowPrivEmpty r) := by
  cases r <;> unfold addrRowPrivEmpty <;> infer_instance

/-- C7.  `ConvertToWatchingOnly` is a no-op returning nil on an already
watching-only manager; otherwise it succeeds, deletes every private-tier
ciphertext from the store, persists the watching-only flag, and zeroes and
releases all private-tier in-memory material, leaving a locked,
watching-only manager.  (The hypothesis is the maintained state invariant
that a locked manager holds no unwrapped private material.) -/
theorem c7_convert_to_watching_only (m : Manager) (s : Store)
    (hcl : m.locked = true → privMaterialCleared m) :
    (m.watchingOnly = true → m.ConvertToWatchingOnly s = ((m, s), .ok ())) ∧
    (m.watchingOnly = false →
      ∀ m2 s2, m.ConvertToWatchingOnly s = ((m2, s2), .ok ()) →
        s2.watchingOnly = true ∧
        s2.masterKeyPrivParams = none ∧
        s2.cryptoKeyPrivEnc = none ∧
        s2.cryptoKeyScriptEnc = none ∧
        s2.coinTypePrivEnc = none ∧
        (∀ e ∈ s2.accounts, e.2.privKeyEncrypted = []) ∧
        (∀ e ∈ s2.addresses, addrRowPrivEmpty e.2) ∧
        m2.watchingOnly = true ∧
        m2.locked = true ∧
        m2.masterKeyPriv = none ∧
        m2.cryptoKeyPriv = none ∧
        m2.cryptoKeyScript = none ∧
        m2.cryptoKeyPrivEncrypted = [] ∧
        m2.cryptoKeyScriptEncrypted = [] ∧
        (∀ e ∈ m2.acctInfo, e.2.acctKeyEncrypted = [] ∧ e.2.acctKeyPriv = none) ∧
        m2.returnedPrivKeys = none ∧
        m2.returnedScripts = none) := by
  constructor
  · intro hw
    unfold Manager.ConvertToWatchingOnly
    simp [hw]
  · intro hw m2 s2 hrun
    unfold Manager.ConvertToWatchingOnly at hrun
    simp [hw] at hrun
    obtain ⟨hm2, hs2⟩ := hrun
    subst hm2
    subst hs2
    refine ⟨rfl, rfl, rfl, rfl, rfl, ?_, ?_, rfl, ?_, rfl, rfl, rfl, rfl, rfl, ?_, rfl, rfl⟩
    · intro e he
      simp only [deletePrivateKeysS, putWatchingOnlyS, List.mem_map] at he
      obtain ⟨x, -, h⟩ := he
      rw [← h]
    · intro e he
      simp only [deletePrivateKeysS, putWatchingOnlyS, List.mem_map] at he
      obtain ⟨x, -, h⟩ := he
      rw [← h]
      cases x.2 <;> trivial
    · by_cases hl : m.locked
      · simp [hl]
      · have hl2 : m.locked = false := by simpa using hl
        simp [hl2, (lockM_cleared m).2]
    · intro e he
      by_cases hl : m.locked
      · rw [if_neg (by simp [hl])] at he
        simp only [List.mem_map] at he
        obtain ⟨x, hx, h⟩ := he
        rw [← h]
        exact ⟨rfl, (hcl hl).1 x hx⟩
      · have hl2 : m.locked = false := by simpa using hl
        rw [if_pos (by simp [hl2])] at he
        simp only [List.mem_map] at he
        obtain ⟨x, hx, h⟩ := he
        rw [← h]
        exact ⟨rfl, ((lockM_cleared m).1).1 x hx⟩

/-- A concrete unlocked, non-watching manager with cached material and a
store holding private ciphertexts, for exercising C7. -/
def c7mgr : Manager := { c2mgr with locked := false }

/-- A concrete store holding private-tier ciphertexts. -/
def c7store : Store :=
  { c6store with
    watchingOnly := false
    masterKeyPrivParams := some [4]
    cryptoKeyPrivEnc := some [5]
    cryptoKeyScriptEnc := some [6]
    coinTypePrivEnc := some [7]
    accounts := [(0, ⟨[1], [2], 0, 0, 0, 0, "default"⟩)]
    addresses := [(11, .importedKey [1] [2]), (12, .script [3] [4]),
                  (13, .chained 0 0 0)] }

/-- Witness for C7 at a concrete non-watching manager and store. -/
theorem c7_convert_to_watching_only_witness :
    ((c7mgr.ConvertToWatchingOnly c7store).1.2).watchingOnly = true ∧
    ((c7mgr.ConvertToWatchingOnly c7store).1.2).masterKeyPrivParams = none ∧
    ((c7mgr.ConvertToWatchingOnly c7store).1.1).masterKeyPriv = none ∧
    ((c7mgr.ConvertToWatchingOnly c7store).1.1).watchingOnly = true := by
  have h := (c7_convert_to_watching_only c7mgr c7store (by decide)).2 rfl
    ((c7mgr.ConvertToWatchingOnly c7store).1.1)
    ((c7mgr.ConvertToWatchingOnly c7store).1.2) rfl
  exact ⟨h.1, h.2.1, h.2.2.2.2.2.2.2.2.2.1, h.2.2.2.2.2.2.2.1⟩

/-- A concrete unlocked, non-watching manager for C9. -/
def c9mgr : Manager := c2mgr

/-- A concrete accounts bucket for C9. -/
def c9accounts : List (Nat × AccountRow) :=
  [(0, ⟨[1], [2], 5, 4294967295, 7, 0, "default"⟩)]

/-- A concrete store for C9. -/
def c9store : Store := { c6store with watchingOnly := false }

/-- C9 counterexample.  After `Close()` the closed flag is set, yet
subsequent operations do not fail: the closed flag is never consulted, so
`MarkUsedChildIndex` and `ConvertToWatchingOnly` still succeed on the
closed manager, refuting "every subsequent operation on the manager
fails". -/
theorem c9_close_counterexample :
    ((c9mgr.Close).1).closed = true ∧
    (Manager.MarkUsedChildIndex ((c9mgr.Close).1) c9accounts 0 0 5).isOk = true ∧
    (((c9mgr.Close).1).ConvertToWatchingOnly c9store).2 = .ok () :=
  ⟨rfl, rfl, rfl⟩

/-- C9 amended.  `Close()` returns nil, sets the closed flag, zeroes the
sensitive public key material (account xpubs, crypto public key, master
public key), and leaves no unwrapped private-tier material (given the
maintained invariants that a locked manager holds no unwrapped private
material and that a watching-only manager is locked); it does not make
subsequent operations fail. -/
theorem c9_close_zeroizes (m : Manager)
    (hcl : m.locked = true → privMaterialCleared m)
    (hwl : m.watchingOnly = true → m.locked = true) :
    (m.Close).2 = .ok () ∧
    (m.Close).1.closed = true ∧
    privMaterialCleared (m.Close).1 ∧
    (∀ e ∈ (m.Close).1.acctInfo, e.2.acctKeyPub = none) ∧
    allZero (m.Close).1.cryptoKeyPub ∧
    allZero (m.Close).1.masterKeyPub.key := by
  have hm1 : privMaterialCleared
      (if !m.watchingOnly && !m.locked then (m.lockM).m else m) := by
    by_cases hl : m.locked
    · simp only [hl, Bool.not_true, Bool.and_false, if_neg]
      · exact hcl hl
    · have hl2 : m.locked = false := by simpa using hl
      by_cases hw : m.watchingOnly
      · exact absurd (hwl hw) (by simp [hl2])
      · have hw2 : m.watchingOnly = false := by simpa using hw
        simp only [hl2, hw2, Bool.not_false, Bool.and_self, if_pos]
        exact (lockM_cleared m).1
  obtain ⟨h1, h2, h3, h4, h5, h6, h7⟩ := hm1
  refine ⟨rfl, rfl, ⟨?_, h2, h3, h4, h5, h6, h7⟩, ?_, ?_, ?_⟩
  · intro e he
    simp only [Manager.Close, Manager.zeroSensitivePublicData, List.mem_map] at he
    obtain ⟨x, hx, h⟩ := he
    rw [← h]
    exact h1 x hx
  · intro e he
    simp only [Manager.Close, Manager.zeroSensitivePublicData, List.mem_map] at he
    obtain ⟨x, hx, h⟩ := he
    rw [← h]
  · exact allZero_zeroBytes _
  · exact allZero_zeroBytes _

/-- Witness for C9 (amended) at a concrete unlocked manager. -/
theorem c9_close_zeroizes_witness :
    (c9mgr.Close).2 = .ok () ∧ (c9mgr.Close).1.closed = true ∧
    privMaterialCleared (c9mgr.Close).1 :=
  have h := c9_close_zeroizes c9mgr (by decide) (by decide)
  ⟨h.1, h.2.1, h.2.2.1⟩

theorem alookup_aput_ne {κ β : Type} [DecidableEq κ] {l : List (κ × β)} {k k2 : κ}
    {v : β} (h : k ≠ k2) : alookup (aput l k v) k2 = alookup l k2 := by
  induction l with
  | nil => simp [aput, alookup, h]
  | cons e t ih =>
    by_cases he : e.1 = k
    · subst he
      simp [aput, alookup, h, ih]
    · simp [aput, he, alookup, ih]

/-- All four last-used/last-returned branch indexes of a row are 0 (and in
particular none of them is the sentinel). -/
def allIdxZero (r : AccountRow) : Prop :=
  r.lastUsedExternalIndex = 0 ∧ r.lastUsedInternalIndex = 0 ∧
  r.lastReturnedExternalIndex = 0 ∧ r.lastReturnedInternalIndex = 0

instance (r : AccountRow) : Decidable (allIdxZero r) := by
  unfold allIdxZero; infer_instance

/-- C10.  `createAddressManager` and `createWatchOnly` persist both the
default account row and the imported account row with all four
last-used/last-returned branch index fields equal to 0 (not the
sentinel). -/
theorem c10_create_rows_zero (env : Env)
    (seed pubPass privPass hdPubKey : List Nat) (coinType : Nat)
    (s2 s3 : Store) :
    (createAddressManager env false seed pubPass privPass coinType = .ok s2 →
      (∃ r, alookup s2.accounts DefaultAccountNumber = some r ∧ allIdxZero r) ∧
      (∃ r, alookup s2.accounts ImportedAddrAccount = some r ∧ allIdxZero r)) ∧
    (createWatchOnly env false hdPubKey pubPass = .ok s3 →
      (∃ r, alookup s3.accounts DefaultAccountNumber = some r ∧ allIdxZero r) ∧
      (∃ r, alookup s3.accounts ImportedAddrAccount = some r ∧ allIdxZero r)) := by
  have hne : DefaultAccountNumber ≠ ImportedAddrAccount := by decide
  constructor
  · intro hrun
    unfold createAddressManager at hrun
    repeat' split at hrun
    all_goals simp_all
    subst hrun
    constructor
    · simp only [putAccountInfoS]
      exact ⟨_, alookup_aput _ _ _, rfl, rfl, rfl, rfl⟩
    · simp only [putAccountInfoS]
      simp only [alookup_aput_ne hne]
      exact ⟨_, alookup_aput _ _ _, rfl, rfl, rfl, rfl⟩
  · intro hrun
    unfold createWatchOnly at hrun
    repeat' split at hrun
    all_goals simp_all
    subst hrun
    constructor
    · simp only [putAccountInfoS]
      exact ⟨_, alookup_aput _ _ _, rfl, rfl, rfl, rfl⟩
    · simp only [putAccountInfoS]
      simp only [alookup_aput_ne hne]
      exact ⟨_, alookup_aput _ _ _, rfl, rfl, rfl, rfl⟩

/-- The store produced by a concrete successful `createAddressManager`. -/
def c10full : Store :=
  ((createAddressManager okEnv false [1] [2] [3] 0).toOption).getD emptyStore

/-- The store produced by a concrete successful `createWatchOnly`. -/
def c10watch : Store :=
  ((createWatchOnly okEnv false [1] [2]).toOption).getD emptyStore

/-- Witness for C10 at concrete successful bootstraps. -/
theorem c10_create_rows_zero_witness :
    (∃ r, alookup c10full.accounts DefaultAccountNumber = some r ∧ allIdxZero r) ∧
    (∃ r, alookup c10watch.accounts ImportedAddrAccount = some r ∧ allIdxZero r) :=
  have h := c10_create_rows_zero okEnv [1] [2] [3] [1] 0 c10full c10watch
  ⟨(h.1 rfl).1, (h.2 rfl).2⟩

/-- C3.  On a non-watching manager (whose master private key object and
crypto private key buffer exist, as on every reachable state), any failing
`Unlock` — including the already-unlocked fast path — leaves the manager
locked with all partially unwrapped private material zeroed, and a
passphrase mismatch (fast-path hash mismatch, or `DeriveKey` refusing the
passphrase) reports `WrongPassphrase`. -/
theorem c3_unlock_failure_locks (env : Env) (m : Manager) (pass : List Nat)
    (hw : m.watchingOnly = false)
    (hmk : m.masterKeyPriv.isSome = true)
    (hck : m.cryptoKeyPriv.isSome = true) :
    (∀ e, (m.Unlock env pass).2 = .error e →
       (m.Unlock env pass).1.locked = true ∧
       privMaterialCleared (m.Unlock env pass).1) ∧
    (m.locked = false →
       env.sha512 (m.privPassphraseSalt ++ pass) ≠ m.hashedPrivPassphrase →
       (m.Unlock env pass).2 = .error .wrongPassphrase) ∧
    (∀ mpk, m.locked = true → m.masterKeyPriv = some mpk →
       env.derive mpk.params pass = .error .invalidPassword →
       (m.Unlock env pass).2 = .error .wrongPassphrase) := by
  refine ⟨?_, ?_, ?_⟩
  · intro e he
    by_cases hl : m.locked
    · obtain ⟨mpk, hmpk⟩ := Option.isSome_iff_exists.1 hmk
      cases hd : env.derive mpk.params pass with
      | error de =>
        simp [Manager.Unlock, hw, hl, hmpk, hd] at he ⊢
        exact ⟨(lockM_cleared m).2, (lockM_cleared m).1⟩
      | ok dk =>
        cases hdec : env.decrypt dk m.cryptoKeyPrivEncrypted with
        | none =>
          simp [Manager.Unlock, hw, hl, hmpk, hd, hdec] at he ⊢
          exact ⟨(lockM_cleared _).2, (lockM_cleared _).1⟩
        | some dec0 =>
          obtain ⟨ck0, hck0⟩ := Option.isSome_iff_exists.1 hck
          cases hua : (unlockAccounts env dec0 m.acctInfo).2 with
          | some e2 =>
            simp [Manager.Unlock, hw, hl, hmpk, hd, hdec, hck0, hua] at he ⊢
            exact ⟨(lockM_cleared _).2, (lockM_cleared _).1⟩
          | none =>
            simp [Manager.Unlock, hw, hl, hmpk, hd, hdec, hck0, hua] at he
    · have hl2 : m.locked = false := by simpa using hl
      by_cases hh : env.sha512 (m.privPassphraseSalt ++ pass) = m.hashedPrivPassphrase
      · simp [Manager.Unlock, hw, hl2, hh] at he
      · simp [Manager.Unlock, hw, hl2, hh] at he ⊢
        exact ⟨(lockM_cleared m).2, (lockM_cleared m).1⟩
  · intro hl2 hh
    simp [Manager.Unlock, hw, hl2, hh]
  · intro mpk hl hmpk hd
    simp [Manager.Unlock, hw, hl, hmpk, hd]

/-- An environment whose key derivation always rejects the passphrase. -/
def c3env : Env := { failEnv with derive := fun _ _ => .error .invalidPassword }

/-- A concrete locked, non-watching manager. -/
def c3mgr : Manager := { c2mgr with locked := true }

/-- Witness for C3: unlocking with a wrong passphrase fails with
`WrongPassphrase` and leaves a locked, cleared manager. -/
theorem c3_unlock_failure_locks_witness :
    (c3mgr.Unlock c3env [9]).2 = .error .wrongPassphrase ∧
    (c3mgr.Unlock c3env [9]).1.locked = true ∧
    privMaterialCleared (c3mgr.Unlock c3env [9]).1 :=
  have h := c3_unlock_failure_locks c3env c3mgr [9] rfl rfl rfl
  have hwp : (c3mgr.Unlock c3env [9]).2 = .error .wrongPassphrase :=
    h.2.2 ⟨[3], [4]⟩ rfl rfl rfl
  ⟨hwp, (h.1 _ hwp).1, (h.1 _ hwp).2⟩

/-- C8.  `ChangePassphrase` verifies the old passphrase against a freshly
derived copy of the master key; on any error the in-memory manager state
is unchanged (so the live master key is never mutated), on any
non-database error the store is also unchanged, a failed authentication
reports `WrongPassphrase`, and on success (private side) the newly
generated master key is both persisted and only then swapped into memory
(zeroed first when the manager is locked). -/
theorem c8_change_passphrase (env : Env) (m : Manager) (s : Store)
    (oldP newP : List Nat) (priv : Bool)
    (hpw : (priv && m.watchingOnly) = false) :
    (∀ m2 s2 e, m.ChangePassphrase env s oldP newP priv = ((m2, s2), .error e) →
       m2 = m ∧ (e ≠ .database → s2 = s)) ∧
    (∀ liveKey, (if priv then m.masterKeyPriv else some m.masterKeyPub) = some liveKey →
       env.derive liveKey.params oldP = .error .invalidPassword →
       (m.ChangePassphrase env s oldP newP priv).2 = .error .wrongPassphrase) ∧
    (priv = true → ∀ m2 s2,
       m.ChangePassphrase env s oldP newP priv = ((m2, s2), .ok ()) →
       ∃ nk, env.newSecretKey newP = some nk ∧
         m2.masterKeyPriv = some (if m.locked then nk.zero else nk) ∧
         s2.masterKeyPrivParams = some nk.params) := by
  refine ⟨?_, ?_, ?_⟩
  · intro m2 s2 e hrun
    unfold Manager.ChangePassphrase at hrun
    unfold putCryptoKeysS putMasterKeyParamsS at hrun
    repeat' split at hrun
    all_goals simp_all
  · intro liveKey hlk hd
    unfold Manager.ChangePassphrase
    simp [hpw, hlk, hd]
  · intro hpriv m2 s2 hok
    subst hpriv
    simp only [Bool.true_and] at hpw
    unfold Manager.ChangePassphrase at hok
    cases hmkp : m.masterKeyPriv with
    | none => simp [hpw, hmkp] at hok
    | some liveKey =>
    cases hd : env.derive liveKey.params oldP with
    | error de => cases de <;> simp [hpw, hmkp, hd] at hok
    | ok verifier =>
    cases hnk : env.newSecretKey newP with
    | none => simp [hpw, hmkp, hd, hnk] at hok
    | some nk =>
    cases hsalt : env.randSalt with
    | none => simp [hpw, hmkp, hd, hnk, hsalt] at hok
    | some salt =>
    cases hd1 : env.decrypt verifier m.cryptoKeyPrivEncrypted with
    | none => simp [hpw, hmkp, hd, hnk, hsalt, hd1] at hok
    | some decPriv =>
    cases he1 : env.encrypt nk.key decPriv with
    | none => simp [hpw, hmkp, hd, hnk, hsalt, hd1, he1] at hok
    | some encPriv =>
    cases hd2 : env.decrypt verifier m.cryptoKeyScriptEncrypted with
    | none => simp [hpw, hmkp, hd, hnk, hsalt, hd1, he1, hd2] at hok
    | some decScript =>
    cases he2 : env.encrypt nk.key decScript with
    | none => simp [hpw, hmkp, hd, hnk, hsalt, hd1, he1, hd2, he2] at hok
    | some encScript =>
    cases hpcf : env.putCryptoKeysFails with
    | true =>
      simp [hpw, hmkp, hd, hnk, hsalt, hd1, he1, hd2, he2, hpcf,
        putCryptoKeysS] at hok
    | false =>
    cases hpmf : env.putMasterKeyParamsFails with
    | true =>
      simp [hpw, hmkp, hd, hnk, hsalt, hd1, he1, hd2, he2, hpcf, hpmf,
        putCryptoKeysS, putMasterKeyParamsS] at hok
    | false =>
      simp only [hpw, hmkp, hd, hnk, hsalt, hd1, he1, hd2, he2, hpcf, hpmf,
        putCryptoKeysS, putMasterKeyParamsS, Bool.false_eq_true, if_false,
        if_true, Bool.true_and, ite_false, ite_true] at hok
      have hm2 := congrArg (fun p => p.1.1) hok
      have hs2 := congrArg (fun p => p.1.2) hok
      simp only at hm2 hs2
      subst hm2
      subst hs2
      exact ⟨nk, rfl, rfl, rfl⟩

/-- A concrete locked, non-watching manager for C8. -/
def c8mgr : Manager := c3mgr

/-- A concrete store for C8. -/
def c8store : Store := c7store

/-- Witness for C8: a wrong old passphrase leaves manager and store
untouched and reports `WrongPassphrase`; a successful private change
persists and swaps in the freshly generated master key. -/
theorem c8_change_passphrase_witness :
    (c8mgr.ChangePassphrase c3env c8store [1] [2] true).2 = .error .wrongPassphrase ∧
    (c8mgr.ChangePassphrase c3env c8store [1] [2] true).1.1 = c8mgr ∧
    (c8mgr.ChangePassphrase c3env c8store [1] [2] true).1.2 = c8store ∧
    (∃ nk, okEnv.newSecretKey [2] = some nk ∧
      (c8mgr.ChangePassphrase okEnv c8store [1] [2] true).1.1.masterKeyPriv =
        some (if c8mgr.locked = true then nk.zero else nk) ∧
      (c8mgr.ChangePassphrase okEnv c8store [1] [2] true).1.2.masterKeyPrivParams =
        some nk.params) := by
  have h1 := c8_change_passphrase c3env c8mgr c8store [1] [2] true rfl
  have h2 := c8_change_passphrase okEnv c8mgr c8store [1] [2] true rfl
  have hwp := h1.2.1 ⟨[3], [4]⟩ rfl rfl
  refine ⟨hwp, ?_, ?_, ?_⟩
  · exact (h1.1 _ _ .wrongPassphrase rfl).1
  · exact (h1.1 _ _ .wrongPassphrase rfl).2 (by decide)
  · exact h2.2.2 rfl _ _ rfl

theorem containsAddr_aput_self (a : AddrMap) (k : Nat) (v : AddrRow) :
    containsAddr (aput a k v) k := by
  unfold containsAddr
  rw [alookup_aput]
  rfl

theorem containsAddr_aput_mono {a : AddrMap} {h : Nat} (k : Nat) (v : AddrRow)
    (hm : containsAddr a h) : containsAddr (aput a k v) h := by
  by_cases hk : k = h
  · subst hk
    exact containsAddr_aput_self a k v
  · unfold containsAddr at hm ⊢
    rw [alookup_aput_ne hk]
    exact hm

theorem containsAddr_aput_elim {a : AddrMap} {h k : Nat} {v : AddrRow}
    (hm : containsAddr (aput a k v) h) : h = k ∨ containsAddr a h := by
  by_cases hk : k = h
  · exact Or.inl hk.symm
  · right
    unfold containsAddr at hm ⊢
    rw [alookup_aput_ne hk] at hm
    exact hm

/-- One scan only ever adds rows: existing keys stay present. -/
theorem syncPass_mono (cf : Nat → ChildResult) (a b : Nat) :
    ∀ c A A2, syncPass cf a b c A = .done A2 →
      ∀ h, containsAddr A h → containsAddr A2 h := by
  intro c
  induction c with
  | zero =>
    intro A A2 hdone h hm
    cases hcf : cf 0 <;> simp only [syncPass, hcf] at hdone
    all_goals try exact absurd hdone (by simp)
    · split at hdone
      · cases hdone; exact hm
      · cases hdone; exact containsAddr_aput_mono _ _ hm
  | succ c ih =>
    intro A A2 hdone h hm
    cases hcf : cf (c + 1) <;> simp only [syncPass, hcf] at hdone
    all_goals try exact absurd hdone (by simp)
    · split at hdone
      · cases hdone; exact hm
      · exact ih _ _ hdone h (containsAddr_aput_mono _ _ hm)
    · exact ih _ _ hdone h hm

/-- Every key of the final bucket is an original key or the hash of some
child processed by the scan. -/
theorem syncPass_new_keys (cf : Nat → ChildResult) (a b : Nat) :
    ∀ c A A2, syncPass cf a b c A = .done A2 →
      ∀ h, containsAddr A2 h →
        containsAddr A h ∨ ∃ j, j ≤ c ∧ cf j = .ok h := by
  intro c
  induction c with
  | zero =>
    intro A A2 hdone h hm
    cases hcf : cf 0 <;> simp only [syncPass, hcf] at hdone
    all_goals try exact absurd hdone (by simp)
    · rename_i h0
      split at hdone
      · cases hdone; exact Or.inl hm
      · cases hdone
        rcases containsAddr_aput_elim hm with rfl | hmem
        · exact Or.inr ⟨0, le_refl 0, hcf⟩
        · exact Or.inl hmem
  | succ c ih =>
    intro A A2 hdone h hm
    cases hcf : cf (c + 1) <;> simp only [syncPass, hcf] at hdone
    all_goals try exact absurd hdone (by simp)
    · rename_i h0
      split at hdone
      · cases hdone; exact Or.inl hm
      · rcases ih _ _ hdone h hm with hmem | ⟨j, hj, hcj⟩
        · rcases containsAddr_aput_elim hmem with rfl | hmem2
          · exact Or.inr ⟨c + 1, le_refl _, hcf⟩
          · exact Or.inl hmem2
        · exact Or.inr ⟨j, Nat.le_succ_of_le hj, hcj⟩
    · rcases ih _ _ hdone h hm with hmem | ⟨j, hj, hcj⟩
      · exact Or.inl hmem
      · exact Or.inr ⟨j, Nat.le_succ_of_le hj, hcj⟩

/-- The scan stops at the first already-present address: once a child `j`
derives to a hash that is already present at the start, nothing is added
for any child at or below `j`; every new key comes from a child strictly
above `j`. -/
theorem syncPass_stops (cf : Nat → ChildResult) (a b : Nat) :
    ∀ c A A2, syncPass cf a b c A = .done A2 →
      ∀ j h, j ≤ c → cf j = .ok h → containsAddr A h →
        ∀ h2, ¬containsAddr A h2 → containsAddr A2 h2 →
          ∃ i, j < i ∧ i ≤ c ∧ cf i = .ok h2 := by
  intro c
  induction c with
  | zero =>
    intro A A2 hdone j h hj hcj hmem h2 hnm hm2
    interval_cases j
    simp only [syncPass, hcj] at hdone
    rw [if_pos hmem] at hdone
    cases hdone
    exact absurd hm2 hnm
  | succ c ih =>
    intro A A2 hdone j h hj hcj hmem h2 hnm hm2
    cases hcf : cf (c + 1) <;> simp only [syncPass, hcf] at hdone
    all_goals try exact absurd hdone (by simp)
    · rename_i h0
      split at hdone
      · cases hdone; exact absurd hm2 hnm
      · rename_i hnp
        have hjc : j ≤ c := by
          rcases Nat.lt_or_ge j (c + 1) with hlt | hge
          · omega
          · exfalso
            have : j = c + 1 := by omega
            subst this
            rw [hcj] at hcf
            cases hcf
            exact hnp hmem
        by_cases hh2 : h2 = h0
        · subst hh2
          exact ⟨c + 1, by omega, le_refl _, hcf⟩
        · have hnm2 : ¬containsAddr (aput A h0 (.chained a b (c + 1))) h2 := by
            intro hc
            rcases containsAddr_aput_elim hc with rfl | hc2
            · exact hh2 rfl
            · exact hnm hc2
          obtain ⟨i, hi1, hi2, hi3⟩ := ih _ _ hdone j h hjc hcj
            (containsAddr_aput_mono _ _ hmem) h2 hnm2 hm2
          exact ⟨i, hi1, Nat.le_succ_of_le hi2, hi3⟩
    · have hjc : j ≤ c := by
        rcases Nat.lt_or_ge j (c + 1) with hlt | hge
        · omega
        · exfalso
          have : j = c + 1 := by omega
          subst this
          rw [hcj] at hcf
          cases hcf
      obtain ⟨i, hi1, hi2, hi3⟩ := ih _ _ hdone j h hjc hcj hmem h2 hnm hm2
      exact ⟨i, hi1, Nat.le_succ_of_le hi2, hi3⟩

/-- Completeness of the downward scan: starting from a bucket that is
downward-closed (invariant 4 of the spec) and with collision-free child
hashes, a completed scan leaves every child of the processed range either
skipped as `ErrInvalidChild` or present in the bucket. -/
theorem syncPass_complete (cf : Nat → ChildResult) (a b k : Nat) (A0 : AddrMap)
    (hclosed : ∀ i h, cf i = .ok h → containsAddr A0 h →
       ∀ j, j ≤ i → cf j = .invalid ∨ ∃ h2, cf j = .ok h2 ∧ containsAddr A0 h2)
    (hinj : ∀ i j h, i ≤ k → j ≤ k → cf i = .ok h → cf j = .ok h → i = j) :
    ∀ c A A2, c ≤ k →
      (∀ h, containsAddr A0 h → containsAddr A h) →
      (∀ j, c < j → j ≤ k → cf j = .invalid ∨ ∃ h, cf j = .ok h ∧ containsAddr A h) →
      (∀ i h, i ≤ c → cf i = .ok h → containsAddr A h → containsAddr A0 h) →
      syncPass cf a b c A = .done A2 →
      ∀ j, j ≤ k → cf j = .invalid ∨ ∃ h, cf j = .ok h ∧ containsAddr A2 h := by
  intro c
  induction c with
  | zero =>
    intro A A2 hck I0 I1 I2 hdone j hj
    cases hcf : cf 0 <;> simp only [syncPass, hcf] at hdone
    all_goals try exact absurd hdone (by simp)
    rename_i h0
    split at hdone
    · rename_i hpres
      cases hdone
      rcases Nat.eq_zero_or_pos j with rfl | hjpos
      · exact Or.inr ⟨h0, hcf, hpres⟩
      · exact I1 j hjpos hj
    · rename_i hpres
      cases hdone
      rcases Nat.eq_zero_or_pos j with rfl | hjpos
      · exact Or.inr ⟨h0, hcf, containsAddr_aput_self _ _ _⟩
      · rcases I1 j hjpos hj with hinv | ⟨h, hok, hmem⟩
        · exact Or.inl hinv
        · exact Or.inr ⟨h, hok, containsAddr_aput_mono _ _ hmem⟩
  | succ c ih =>
    intro A A2 hck I0 I1 I2 hdone j hj
    cases hcf : cf (c + 1) <;> simp only [syncPass, hcf] at hdone
    all_goals try exact absurd hdone (by simp)
    · rename_i h0
      split at hdone
      · rename_i hpres
        cases hdone
        rcases Nat.lt_trichotomy j (c + 1) with hlt | rfl | hgt
        · have hA0 : containsAddr A0 h0 := I2 (c + 1) h0 (le_refl _) hcf hpres
          rcases hclosed (c + 1) h0 hcf hA0 j (by omega) with hinv | ⟨h2, hok2, hmem0⟩
          · exact Or.inl hinv
          · exact Or.inr ⟨h2, hok2, I0 h2 hmem0⟩
        · exact Or.inr ⟨h0, hcf, hpres⟩
        · exact I1 j hgt hj
      · rename_i hpres
        refine ih _ _ (by omega) ?_ ?_ ?_ hdone j hj
        · intro h hm
          exact containsAddr_aput_mono _ _ (I0 h hm)
        · intro j2 hj2 hj2k
          by_cases hj2e : j2 = c + 1
          · subst hj2e
            exact Or.inr ⟨h0, hcf, containsAddr_aput_self _ _ _⟩
          · rcases I1 j2 (by omega) hj2k with hinv | ⟨h, hok, hmem⟩
            · exact Or.inl hinv
            · exact Or.inr ⟨h, hok, containsAddr_aput_mono _ _ hmem⟩
        · intro i h hi hoki hmi
          rcases containsAddr_aput_elim hmi with heq | hmA
          · exfalso
            subst heq
            have := hinj i (c + 1) h (by omega) hck hoki hcf
            omega
          · exact I2 i h (by omega) hoki hmA
    · refine ih _ _ (by omega) I0 ?_ (fun i h hi => I2 i h (by omega)) hdone j hj
      intro j2 hj2 hj2k
      by_cases hj2e : j2 = c + 1
      · subst hj2e
        exact Or.inl hcf
      · exact I1 j2 (by omega) hj2k

/-- When the derivation of child `^uint32(0)` fails hard (as it must: it is
a hardened index, underivable from an extended public key), a successful
`syncLoop` is exactly a completed first scan. -/
theorem syncLoop_done {cf : Nat → ChildResult} {a b k : Nat} {A A2 : AddrMap}
    (hh : cf U32Sentinel = .fail) (hrun : syncLoop cf a b k A = .ok A2) :
    syncPass cf a b k A = .done A2 := by
  unfold syncLoop at hrun
  cases hp : syncPass cf a b k A with
  | done A1 =>
    rw [hp] at hrun
    injection hrun with h
    rw [h]
  | failed e =>
    rw [hp] at hrun
    cases hrun
  | wrapped A1 =>
    rw [hp] at hrun
    have hs : syncPass cf a b U32Sentinel A1 = .failed .keyChain := by
      have h1 : U32Sentinel = 4294967294 + 1 := rfl
      rw [h1] at hh ⊢
      simp only [syncPass, hh]
    have hrun2 : (match syncPass cf a b U32Sentinel A1 with
      | PassOut.done a2 => (Except.ok a2 : Except MErr AddrMap)
      | PassOut.failed e => Except.error e
      | PassOut.wrapped a2 =>
        match syncPass cf a b U32Sentinel a2 with
        | PassOut.done a3 => Except.ok a3
        | PassOut.failed e => Except.error e
        | PassOut.wrapped _ => Except.error MErr.diverges) = Except.ok A2 := hrun
    rw [hs] at hrun2
    cases hrun2

/-- C1.  For an existing BIP0044 account (at most 2^31-2), a branch in
{0, 1} and a target index at most 2^31-1, a `SyncAccountToAddrIndex` that
returns without error guarantees: every child of the range either raised
`ErrInvalidChild` or has its P2PKH hash present in the addresses bucket;
every new bucket key is the hash of some derivable child of the range;
the work happened in a single downward scan from the target (terminating
by child 0); and the scan stopped at the first already-present address —
nothing is written below it.  The hypotheses are the spec's invariant 4
(downward closure of the initial bucket), collision-freeness of the
derived hashes, and the BIP0032 fact that the hardened child `2^32-1`
cannot be derived from the branch xpub. -/
theorem c1_sync_account_to_addr_index (env : Env) (m : Manager)
    (account branch k : Nat) (A0 A2 : AddrMap) (info : AccountInfo)
    (pk xpb : ExtKey)
    (hacct : account ≤ MaxAccountNum)
    (hbr : branch = ExternalBranch ∨ branch = InternalBranch)
    (hk : k ≤ MaxAddressesPerAccount)
    (hload : (m.loadAccountInfo env account).2 = .ok info)
    (hpk : info.acctKeyPub = some pk)
    (hxpb : env.keyChild pk branch = .okK xpb)
    (hclosed : ∀ i h, childHash env xpb i = .ok h → containsAddr A0 h →
       ∀ j, j ≤ i → childHash env xpb j = .invalid ∨
         ∃ h2, childHash env xpb j = .ok h2 ∧ containsAddr A0 h2)
    (hinj : ∀ i j h, i ≤ k → j ≤ k → childHash env xpb i = .ok h →
       childHash env xpb j = .ok h → i = j)
    (hhard : childHash env xpb U32Sentinel = .fail)
    (hrun : (m.SyncAccountToAddrIndex env account k branch A0).2 = .ok A2) :
    (∀ j, j ≤ k → childHash env xpb j = .invalid ∨
       ∃ h, childHash env xpb j = .ok h ∧ containsAddr A2 h) ∧
    (∀ h, containsAddr A2 h →
       containsAddr A0 h ∨ ∃ j, j ≤ k ∧ childHash env xpb j = .ok h) ∧
    syncPass (childHash env xpb) account branch k A0 = .done A2 ∧
    (∀ j h, j ≤ k → childHash env xpb j = .ok h → containsAddr A0 h →
       ∀ h2, ¬containsAddr A0 h2 → containsAddr A2 h2 →
         ∃ i, j < i ∧ i ≤ k ∧ childHash env xpb i = .ok h2) := by
  have hne : account ≠ ImportedAddrAccount := by
    unfold MaxAccountNum HardenedKeyStart at hacct
    unfold ImportedAddrAccount MaxAccountNum HardenedKeyStart
    omega
  have hng : ¬(account > MaxAccountNum) := by omega
  unfold Manager.SyncAccountToAddrIndex at hrun
  rw [if_neg hng] at hrun
  unfold Manager.syncAccountToAddrIndex at hrun
  rw [if_neg hne] at hrun
  rcases hLA : m.loadAccountInfo env account with ⟨m1, r⟩
  rw [hLA] at hrun hload
  simp only at hload
  subst hload
  simp only at hrun
  rw [if_pos hbr] at hrun
  rw [hpk] at hrun
  simp only at hrun
  rw [hxpb] at hrun
  simp only at hrun
  rw [if_neg (by omega : ¬(k > MaxAddressesPerAccount))] at hrun
  split at hrun
  · cases hrun
  · simp only at hrun
    have hpass := syncLoop_done hhard hrun
    refine ⟨?_, syncPass_new_keys _ _ _ _ _ _ hpass, hpass,
      syncPass_stops _ _ _ _ _ _ hpass⟩
    intro j hj
    exact syncPass_complete (childHash env xpb) account branch k A0 hclosed hinj
      k A0 A2 (le_refl k) (fun h hm => hm)
      (fun j2 h1 h2 => absurd h2 (not_le.2 h1))
      (fun i h _ _ hm => hm) hpass j hj

/-- A concrete account xpub for C1. -/
def c1pk : ExtKey := ⟨[1]⟩

/-- The concrete branch xpub derived from `c1pk`. -/
def c1xpb : ExtKey := ⟨[10]⟩

/-- A concrete derivation environment: children 0..2 of the branch xpub
derive to distinct hashes 20..22, all other derivations fail. -/
def c1env : Env :=
  { failEnv with
    keyChild := fun key child =>
      if key = c1pk then .okK c1xpb
      else if key = c1xpb then
        (if child ≤ 2 then .okK ⟨[20 + child]⟩ else .failK)
      else .failK
    addrHash := fun key => key.bytes.headD 0 }

/-- A concrete cached account info whose xpub is `c1pk`. -/
def c1info : AccountInfo := ⟨"default", [9], none, some c1pk⟩

/-- A concrete locked manager with account 0 cached. -/
def c1mgr : Manager := { c3mgr with acctInfo := [(0, c1info)] }

/-- The addresses bucket produced by syncing account 0, branch 0 to
index 2 from an empty bucket. -/
def c1result : AddrMap :=
  (((c1mgr.SyncAccountToAddrIndex c1env 0 2 0 []).2).toOption).getD []

/-- Witness for C1: a concrete successful sync to index 2 leaves every
child present and is a single completed downward scan. -/
theorem c1_sync_account_to_addr_index_witness :
    (∀ j, j ≤ 2 → childHash c1env c1xpb j = .invalid ∨
       ∃ h, childHash c1env c1xpb j = .ok h ∧ containsAddr c1result h) ∧
    syncPass (childHash c1env c1xpb) 0 0 2 [] = .done c1result := by
  have h := c1_sync_account_to_addr_index c1env c1mgr 0 0 2 [] c1result c1info
    c1pk c1xpb
    (by decide) (Or.inl rfl) (by decide) rfl rfl rfl
    (by
      intro i h hok hmem
      simp [containsAddr, alookup] at hmem)
    (by
      intro i j h hi hj h1 h2
      interval_cases i <;> interval_cases j <;>
        simp_all [childHash, c1env, failEnv, c1pk, c1xpb] <;> omega)
    rfl rfl
  exact ⟨h.1, h.2.2.1⟩
